import Mathlib

/-!
Shallow embedding of the sectioned binary vector codec (src/section.rs) of the
compressed-vec crate, together with proofs of the specification claims.

Conventions of the embedding:
* Byte buffers are `List Nat`; every byte stored by the code itself is < 256 by
  construction.  Reads mask with `% 256` as real bytes are always < 256.
* Machine-integer arithmetic that can overflow in Rust is modelled explicitly:
  `u16` additions are taken `% 65536` (release-mode wrapping semantics), and the
  `as u16` cast is `% 65536`.  `Nat` subtraction only appears where the Rust
  code cannot underflow, or where a panic is modelled separately.
* Fallible Rust code returns `Except CodingError`; Rust panics (failed slice
  indexing, `assert!`, `unwrap`) are modelled by an outer `Option`, `none`
  meaning a panic.
-/

namespace CompressedVec

/-- Error taxonomy of the crate (spec section 7).  The `error` module is not part
of the sources under verification, so the constructors are taken from the spec:
`NotEnoughSpace`, `InputTooShort`, `InvalidSectionType`, `BadLengthField`. -/
inductive CodingError where
  | NotEnoughSpace
  | InputTooShort
  | InvalidSectionType (n : Nat)
  | BadLengthField
  deriving DecidableEq, Repr

instance {ε α : Type} [DecidableEq ε] [DecidableEq α] : DecidableEq (Except ε α) :=
  fun a b =>
    match a, b with
    | Except.ok x, Except.ok y =>
      if h : x = y then Decidable.isTrue (by rw [h])
      else Decidable.isFalse (by intro hc; cases hc; exact h rfl)
    | Except.error x, Except.error y =>
      if h : x = y then Decidable.isTrue (by rw [h])
      else Decidable.isFalse (by intro hc; cases hc; exact h rfl)
    | Except.ok _, Except.error _ => Decidable.isFalse (by intro hc; cases hc)
    | Except.error _, Except.ok _ => Decidable.isFalse (by intro hc; cases hc)

/-- Modelled from the spec: writing bytes into a mutable buffer at an offset
(the scroll `pwrite_with` calls).  Fails with `NotEnoughSpace` when the write
would run past the end of the buffer, as the spec prescribes for write
overflows. -/
def writeBytes (buf : List Nat) (off : Nat) (bs : List Nat) :
    Except CodingError (List Nat) :=
  if off + bs.length ≤ buf.length then
    Except.ok (buf.take off ++ bs ++ buf.drop (off + bs.length))
  else Except.error CodingError.NotEnoughSpace

/-- Modelled from the spec: reading a little-endian `u16` at an offset (the
scroll `pread_with` calls).  A read past the end of the slice is a short-input
error. -/
def readU16LE (buf : List Nat) (off : Nat) : Except CodingError Nat :=
  if off + 2 ≤ buf.length then
    Except.ok (buf.getD off 0 % 256 + 256 * (buf.getD (off + 1) 0 % 256))
  else Except.error CodingError.InputTooShort

/-- Little-endian byte encoding of a `u16` value. -/
def u16le (n : Nat) : List Nat := [n % 256, n / 256 % 256]

/-- Section type tag: the first byte of every fixed section. -/
inductive SectionType where
  | Null
  | NibblePackedU64Medium
  | NibblePackedU32Medium
  deriving DecidableEq, Repr

def SectionType.as_num : SectionType → Nat
  | .Null => 0
  | .NibblePackedU64Medium => 1
  | .NibblePackedU32Medium => 2

/-- TryFrom u8 for SectionType: tags 0, 1, 2 decode; anything else is
`InvalidSectionType`. -/
def SectionType.try_from (n : Nat) : Except CodingError SectionType :=
  match n with
  | 0 => Except.ok SectionType.Null
  | 1 => Except.ok SectionType.NibblePackedU64Medium
  | 2 => Except.ok SectionType.NibblePackedU32Medium
  | _ => Except.error (CodingError.InvalidSectionType n)

/-- NibblePackU64MedFixedSect carries the declared payload length of the
section. -/
structure NibblePackU64MedFixedSect where
  encoded_bytes : Nat
  deriving DecidableEq, Repr

/-- NibblePackU32MedFixedSect carries the declared payload length of the
section. -/
structure NibblePackU32MedFixedSect where
  encoded_bytes : Nat
  deriving DecidableEq, Repr

/-- NullFixedSect: 256 null elements, one byte on the wire. -/
structure NullFixedSect where
  deriving DecidableEq, Repr

/-- Constructor of `NibblePackU64MedFixedSect` from a byte slice.  Mirrors the
source: read a little-endian u16 at offset 1, then check
`(n + 3) <= sect_bytes.len() as u16`.  Both sides of that comparison are
16-bit values in the source, so both are reduced `% 65536` here (the `as u16`
cast truncates, and `n + 3` wraps in release mode; in debug mode `n + 3`
panics for `n ≥ 65533`). -/
def NibblePackU64MedFixedSect.try_from (sect_bytes : List Nat) :
    Except CodingError NibblePackU64MedFixedSect :=
  match readU16LE sect_bytes 1 with
  | Except.error e => Except.error e
  | Except.ok n =>
    if (n + 3) % 65536 ≤ sect_bytes.length % 65536 then
      Except.ok { encoded_bytes := n }
    else Except.error CodingError.BadLengthField

/-- Constructor of `NibblePackU32MedFixedSect` from a byte slice; the source
body is identical to the u64 one. -/
def NibblePackU32MedFixedSect.try_from (sect_bytes : List Nat) :
    Except CodingError NibblePackU32MedFixedSect :=
  match readU16LE sect_bytes 1 with
  | Except.error e => Except.error e
  | Except.ok n =>
    if (n + 3) % 65536 ≤ sect_bytes.length % 65536 then
      Except.ok { encoded_bytes := n }
    else Except.error CodingError.BadLengthField

/-- Tagged union over the fixed-section variants. -/
inductive FixedSectEnum where
  | NullFS (s : NullFixedSect)
  | NPU64 (s : NibblePackU64MedFixedSect)
  | NPU32 (s : NibblePackU32MedFixedSect)
  deriving DecidableEq, Repr

/-- Total number of bytes in a fixed section including the type byte. -/
def FixedSectEnum.num_bytes : FixedSectEnum → Nat
  | .NullFS _ => 1
  | .NPU64 s => s.encoded_bytes + 3
  | .NPU32 s => s.encoded_bytes + 3

/-- Constructor of a `FixedSectEnum` from a byte slice: empty input is
`InputTooShort`; otherwise byte 0 is decoded as a `SectionType` (unknown tags
fail with `InvalidSectionType`) and the variant constructor is dispatched, its
error propagated. -/
def FixedSectEnum.try_from (s : List Nat) : Except CodingError FixedSectEnum :=
  match s with
  | [] => Except.error CodingError.InputTooShort
  | b :: _ =>
    match SectionType.try_from b with
    | Except.error e => Except.error e
    | Except.ok SectionType.Null => Except.ok (FixedSectEnum.NullFS {})
    | Except.ok SectionType.NibblePackedU64Medium =>
      (NibblePackU64MedFixedSect.try_from s).map FixedSectEnum.NPU64
    | Except.ok SectionType.NibblePackedU32Medium =>
      (NibblePackU32MedFixedSect.try_from s).map FixedSectEnum.NPU32

/-- Fixed number of elements per fixed section. -/
def FIXED_LEN : Nat := 256

/-! ### Nibble-pack primitives, modelled from the spec

The `nibblepacking` and `nibblepack_simd` modules are external collaborators
(spec sections 1 and 6): only their interfaces are specified.  They are
modelled here as a concrete variable-length codec for 8-tuples of integers:
each value is emitted as one length byte followed by that many little-endian
payload bytes.  This realizes exactly the interface the spec gives:
`nibble_pack8` emits a variable-length encoding of an 8-tuple into the buffer
returning the new offset (or `NotEnoughSpace`), and the unpackers invert it. -/

/-- Modelled from the spec: minimal little-endian byte string of a value. -/
def leBytes (v : Nat) : List Nat :=
  if v = 0 then [] else v % 256 :: leBytes (v / 256)
  decreasing_by exact Nat.div_lt_self (Nat.pos_of_ne_zero (by assumption)) (by omega)

/-- Value of a little-endian byte string. -/
def fromLE : List Nat → Nat
  | [] => 0
  | b :: rest => b % 256 + 256 * fromLE rest

/-- Modelled from the spec: variable-length encoding of one value, a length
byte followed by the payload bytes. -/
def encVal (v : Nat) : List Nat := (leBytes v).length :: leBytes v

/-- Modelled from the spec: concatenated encoding of a list of values. -/
def encList : List Nat → List Nat
  | [] => []
  | v :: rest => encVal v ++ encList rest

/-- Modelled from the spec: decode `k` values from a byte string, returning the
values and the remaining bytes, or `none` when the input is exhausted. -/
def decVals : Nat → List Nat → Option (List Nat × List Nat)
  | 0, bs => some ([], bs)
  | k + 1, [] => (fun _ => none) k
  | k + 1, n :: rest =>
    if n ≤ rest.length then
      match decVals k (rest.drop n) with
      | some (vs, rem) => some (fromLE (rest.take n) :: vs, rem)
      | none => none
    else none

/-- Modelled from the spec: `nibble_pack8(chunk, out, offset)` emits the
variable-length encoding of an 8-element group at `offset`, returning the new
offset, or `NotEnoughSpace` when the output buffer is too small. -/
def nibble_pack8 (chunk : List Nat) (out_buf : List Nat) (off : Nat) :
    Except CodingError (List Nat × Nat) :=
  match writeBytes out_buf off (encList chunk) with
  | Except.ok buf => Except.ok (buf, off + (encList chunk).length)
  | Except.error e => Except.error e

/-- The 32-iteration packing loop of `NibblePackU64MedFixedSect::write`,
consuming 8 values per step (the source asserts 256 values and loops over 32
consecutive 8-element groups). -/
def pack_groups (vals : List Nat) (buf : List Nat) (off : Nat) :
    Except CodingError (List Nat × Nat) :=
  match vals with
  | [] => Except.ok (buf, off)
  | v :: rest =>
    match nibble_pack8 ((v :: rest).take 8) buf off with
    | Except.ok (buf1, off1) => pack_groups ((v :: rest).drop 8) buf1 off1
    | Except.error e => Except.error e
  termination_by vals.length
  decreasing_by simp only [List.length_drop, List.length_cons]; omega

/-- Modelled from the spec: the bulk encoder `pack_u64` processes the value
stream in 8-element groups through the nibble-pack primitive. -/
def pack_u64 (vals : List Nat) (buf : List Nat) (off : Nat) :
    Except CodingError (List Nat × Nat) :=
  pack_groups vals buf off

/-- Tail of the Medium writers: compute `num_bytes = off - offset - 3`, and
when it fits a `u16` write it little-endian at `offset + 1` and return `off`;
otherwise fail with `NotEnoughSpace` (length written last). -/
def medFinishWrite (buf : List Nat) (offset off : Nat) :
    Except CodingError (List Nat × Nat) :=
  let num_bytes := off - offset - 3
  if num_bytes ≤ 65535 then
    match writeBytes buf (offset + 1) (u16le num_bytes) with
    | Except.ok buf2 => Except.ok (buf2, off)
    | Except.error e => Except.error e
  else Except.error CodingError.NotEnoughSpace

/-- Writer of a NibblePacked u64 Medium section: tag byte at `offset`, packed
groups from `offset + 3`, length field last.  The source's
`assert_eq!(values.len(), FIXED_LEN)` panic is the outer `none`. -/
def NibblePackU64MedFixedSect.write (out_buf : List Nat) (offset : Nat)
    (values : List Nat) : Option (Except CodingError (List Nat × Nat)) :=
  if values.length = FIXED_LEN then
    some (match writeBytes out_buf offset [SectionType.NibblePackedU64Medium.as_num] with
      | Except.error e => Except.error e
      | Except.ok buf0 =>
        match pack_groups values buf0 (offset + 3) with
        | Except.error e => Except.error e
        | Except.ok (buf1, off) => medFinishWrite buf1 offset off)
  else none

/-- Writer of a NibblePacked u32 Medium section: identical to the u64 writer
except the values are widened to u64 (identity on `Nat`) and encoded through
`pack_u64`. -/
def NibblePackU32MedFixedSect.write (out_buf : List Nat) (offset : Nat)
    (values : List Nat) : Option (Except CodingError (List Nat × Nat)) :=
  if values.length = FIXED_LEN then
    some (match writeBytes out_buf offset [SectionType.NibblePackedU32Medium.as_num] with
      | Except.error e => Except.error e
      | Except.ok buf0 =>
        match pack_u64 values buf0 (offset + 3) with
        | Except.error e => Except.error e
        | Except.ok (buf1, off) => medFinishWrite buf1 offset off)
  else none

/-- Writer of a null section: a single `SectionType::Null` byte at `offset`. -/
def NullFixedSect.write (out_buf : List Nat) (offset : Nat) :
    Except CodingError (List Nat × Nat) :=
  match writeBytes out_buf offset [SectionType.Null.as_num] with
  | Except.ok buf => Except.ok (buf, offset + 1)
  | Except.error e => Except.error e

/-- Modelled from the spec: the scalar nibble-unpack iterator
(`IterU64Sink::new(bytes, n)` collected to a list).  It lazily decodes up to
`n` values and stops at the first ill-formed group. -/
def IterU64Sink (bytes : List Nat) (n : Nat) : List Nat :=
  match n, bytes with
  | 0, _ => []
  | _ + 1, [] => []
  | k + 1, len :: rest =>
    if len ≤ rest.length then
      fromLE (rest.take len) :: IterU64Sink (rest.drop len) k
    else []
  termination_by n

/-- Modelled from the spec: `unpack8_u32_simd(in, sink)` decodes one 8-element
group, feeds the 8 values (narrowed to u32) to the sink, and returns the
remaining input; an exhausted input is a short-input error. -/
def unpack8_u32_simd (inbuf : List Nat) :
    Except CodingError (List Nat × List Nat) :=
  match decVals 8 inbuf with
  | some (vs, rem) => Except.ok (vs.map (fun v => v % 4294967296), rem)
  | none => Except.error CodingError.InputTooShort

/-- The decode loop of `decode_to_sink`: `while values_left > 0` unpack one
8-element stride; the accumulator is the utility `U32_256Sink` contents. -/
def decodeLoop (inbuf : List Nat) (values_left : Nat) (acc : List Nat) :
    Except CodingError (List Nat) :=
  if values_left = 0 then Except.ok acc
  else
    match unpack8_u32_simd inbuf with
    | Except.ok (vs, rem) => decodeLoop rem (values_left - 8) (acc ++ vs)
    | Except.error e => Except.error e
  termination_by values_left
  decreasing_by exact Nat.sub_lt (Nat.pos_of_ne_zero (by assumption)) (by omega)

/-- NibblePackU32MedFixedSect.decode_to_sink: unconditionally slices
`sect_bytes[3..]` (a panic, `none`, when the slice has fewer than 3 bytes) and
unpacks 8-element strides until 256 values are produced. -/
def NibblePackU32MedFixedSect.decode_to_sink (sect_bytes : List Nat) :
    Option (Except CodingError (List Nat)) :=
  if sect_bytes.length < 3 then none
  else some (decodeLoop (sect_bytes.drop 3) FIXED_LEN [])

/-- The utility whole-section decoder `unpack_u32_section`: decode to a
`U32_256Sink` and `unwrap` (so a decode error is also a panic). -/
def unpack_u32_section (buf : List Nat) : Option (List Nat) :=
  match NibblePackU32MedFixedSect.decode_to_sink buf with
  | some (Except.ok vs) => some vs
  | some (Except.error _) => none
  | none => none

/-- FixedSectIterator, collected to a list of `(variant, remaining slice)`
items.  Each step tries `FixedSectEnum::try_from` on the remainder; on success
it yields the item and advances by `num_bytes` (a panic, `none`, when
`num_bytes` exceeds the remainder); on failure it stops. -/
def sectList (bytes : List Nat) :
    Option (List (FixedSectEnum × List Nat)) :=
  match h : FixedSectEnum.try_from bytes with
  | Except.error _ => some []
  | Except.ok fse =>
    if hn : fse.num_bytes ≤ bytes.length then
      match sectList (bytes.drop fse.num_bytes) with
      | some rest => some ((fse, bytes) :: rest)
      | none => none
    else none
  termination_by bytes.length
  decreasing_by
    simp only [List.length_drop]
    have hne : bytes ≠ [] := by
      intro hb; rw [hb] at h; simp [FixedSectEnum.try_from] at h
    have h1 : 1 ≤ fse.num_bytes := by
      cases fse <;> simp [FixedSectEnum.num_bytes]
    have : 0 < bytes.length := List.length_pos.mpr hne
    omega

/-- One fixed-section write operation. -/
inductive WOp where
  | wnull
  | wu64 (vals : List Nat)
  | wu32 (vals : List Nat)

/-- Folds a sequence of fixed-section writes into a buffer, threading the
offset; stops at the first error or panic. -/
def writeSeq (ops : List WOp) (buf : List Nat) (off : Nat) :
    Option (Except CodingError (List Nat × Nat)) :=
  match ops with
  | [] => some (Except.ok (buf, off))
  | op :: rest =>
    match (match op with
           | WOp.wnull => some (NullFixedSect.write buf off)
           | WOp.wu64 vals => NibblePackU64MedFixedSect.write buf off vals
           | WOp.wu32 vals => NibblePackU32MedFixedSect.write buf off vals) with
    | none => none
    | some (Except.error e) => some (Except.error e)
    | some (Except.ok (buf1, off1)) => writeSeq rest buf1 off1

/-! ### SectionWriter: the variable-sized section state machine -/

/-- Five-byte section header: payload bytes, element count, section type. -/
structure SectionHeader where
  num_bytes : Nat
  num_elements : Nat
  typ : SectionType
  deriving DecidableEq, Repr

/-- Little-endian wire form of a header (the scroll-derived `Pwrite`): two u16
fields then the type byte. -/
def SectionHeader.toBytes (h : SectionHeader) : List Nat :=
  u16le h.num_bytes ++ u16le h.num_elements ++ [h.typ.as_num]

/-- SectionWriter state: output buffer, write cursor, current header position,
element cap, and the in-memory copy of the current header. -/
structure SectionWriter where
  write_buf : List Nat
  cur_pos : Nat
  cur_header_pos : Nat
  max_elements_per_sect : Nat
  cur_header : SectionHeader
  deriving DecidableEq, Repr

/-- Fresh writer over a buffer: position 0 (the sentinel for "no section
initialized"), zeroed header of type Null. -/
def SectionWriter.new (buf : List Nat) (max_elements_per_sect : Nat) : SectionWriter :=
  { write_buf := buf
    cur_pos := 0
    cur_header_pos := 0
    max_elements_per_sect
    cur_header := { num_bytes := 0, num_elements := 0, typ := SectionType.Null } }

/-- Rewrites the in-memory header at `cur_header_pos` (5 bytes); on failure the
buffer is unchanged and the error is returned. -/
def SectionWriter.update_sect_header (s : SectionWriter) :
    SectionWriter × Except CodingError (Nat × Nat) :=
  match writeBytes s.write_buf s.cur_header_pos s.cur_header.toBytes with
  | Except.ok buf => ({ s with write_buf := buf }, Except.ok (5, 0))
  | Except.error e => (s, Except.error e)

/-- Opens a new section at `cur_pos`: resets the in-memory header (this
mutation persists even when the header write then fails), writes the header,
and advances `cur_pos` by the 5 written bytes. -/
def SectionWriter.init_new_section (s : SectionWriter) (t : SectionType) :
    SectionWriter × Except CodingError (Nat × Nat) :=
  match SectionWriter.update_sect_header
      { s with
        cur_header := { num_bytes := 0, num_elements := 0, typ := t }
        cur_header_pos := s.cur_pos } with
  | (s2, Except.ok (bw, _)) => ({ s2 with cur_pos := s2.cur_pos + bw }, Except.ok (bw, 0))
  | (s2, Except.error e) => (s2, Except.error e)

/-- A filler is given the writable window and the element budget, and reports
the overwritten window together with the bytes and elements written.  In the
source the filler mutates the window in place; here the returned window is
spliced back on success (no examined property observes payload bytes, and a
well-behaved filler returns a window of the same length). -/
def Filler : Type := List Nat → Nat → Except CodingError (List Nat × Nat × Nat)

mutual

/-- The add-operation of the writer (`SectionWriter::add_64kb`).  When no
section is initialized (`cur_pos = 0`) it opens one, propagating a failed
header write; the remaining body of the source function is split out as
`SectionWriter.addBody` below. -/
def SectionWriter.add_64kb (s0 : SectionWriter) (t : SectionType) (f : Filler) :
    Option (SectionWriter × Except CodingError (Nat × Nat)) :=
  if s0.cur_pos = 0 then
    match hinit : s0.init_new_section t with
    | (s1, Except.ok _) => SectionWriter.addBody s1 t f
    | (s1, Except.error e) => some (s1, Except.error e)
  else SectionWriter.addBody s0 t f
  termination_by (s0.write_buf.length + 1 - s0.cur_pos, 1)
  decreasing_by
    · apply Prod.Lex.left
      unfold SectionWriter.init_new_section at hinit
      split at hinit
      · next s3 bw u2 hu =>
        unfold SectionWriter.update_sect_header at hu
        split at hu
        · next buf hw =>
          cases hu
          cases hinit
          unfold writeBytes at hw
          split at hw
          · next hle =>
            cases hw
            simp only [SectionHeader.toBytes, u16le, List.length_append,
              List.length_cons, List.length_nil, List.length_take,
              List.length_drop] at hle ⊢
            omega
          · cases hw
        · cases hu
      · cases hinit
    · apply Prod.Lex.right
      omega

/-- The post-initialization body of `SectionWriter::add_64kb`: compute element
and byte budgets, call the filler once on the writable window
`write_buf[cur_pos .. cur_pos + bytes_left]`, and commit, roll over (recursing
into `add_64kb`), or propagate.  Panics of the source (the budget subtraction
and slicing when `cur_pos` is beyond the buffer, the `assert!` on the element
budget) are `none`.  The u16 header counters wrap `% 65536` as in a release
build. -/
def SectionWriter.addBody (s : SectionWriter) (t : SectionType) (f : Filler) :
    Option (SectionWriter × Except CodingError (Nat × Nat)) :=
  if s.write_buf.length < s.cur_pos then none
  else
    let elements_left := s.max_elements_per_sect - s.cur_header.num_elements
    let bytes_left := min (65535 - s.cur_header.num_bytes)
                          (s.write_buf.length - s.cur_pos)
    match f ((s.write_buf.drop s.cur_pos).take bytes_left) elements_left with
    | Except.ok (w, b, e) =>
      if e ≤ elements_left then
        match SectionWriter.update_sect_header { s with
          write_buf := s.write_buf.take s.cur_pos ++
                       (w ++ List.replicate bytes_left 0).take bytes_left ++
                       s.write_buf.drop (s.cur_pos + bytes_left)
          cur_header := { s.cur_header with
            num_bytes := (s.cur_header.num_bytes + b) % 65536
            num_elements := (s.cur_header.num_elements + e) % 65536 }
          cur_pos := s.cur_pos + b } with
        | (s2, Except.ok _) => some (s2, Except.ok (b, e))
        | (s2, Except.error e2) => some (s2, Except.error e2)
      else none
    | Except.error CodingError.NotEnoughSpace =>
      match hroll : s.init_new_section t with
      | (s2, Except.ok _) => SectionWriter.add_64kb s2 t f
      | (s2, Except.error e2) => some (s2, Except.error e2)
    | Except.error e => some (s, Except.error e)
  termination_by (s.write_buf.length + 1 - s.cur_pos, 0)
  decreasing_by
    apply Prod.Lex.left
    unfold SectionWriter.init_new_section at hroll
    split at hroll
    · next s3 bw u2 hu =>
      unfold SectionWriter.update_sect_header at hu
      split at hu
      · next buf hw =>
        cases hu
        cases hroll
        unfold writeBytes at hw
        split at hw
        · next hle =>
          cases hw
          simp only [SectionHeader.toBytes, u16le, List.length_append,
            List.length_cons, List.length_nil, List.length_take,
            List.length_drop] at hle ⊢
          omega
        · cases hw
      · cases hu
    · cases hroll

end

/-- Runs a sequence of `add_64kb` calls (each a section type and a filler) on
a writer, threading the state; the writer survives error results, a panic
(`none`) aborts. -/
def runAdds : SectionWriter → List (SectionType × Filler) → Option SectionWriter
  | s, [] => some s
  | s, c :: rest =>
    match s.add_64kb c.1 c.2 with
    | some (s2, _) => runAdds s2 rest
    | none => none

/-- Intermediate writer states of the C2 counterexample run: all-zero 30-byte
buffer, cursor `p`, header position `q`, zeroed Null header. -/
def c2CexState (p q : Nat) : SectionWriter :=
  { write_buf := List.replicate 30 0, cur_pos := p, cur_header_pos := q,
    max_elements_per_sect := 256,
    cur_header := { num_bytes := 0, num_elements := 0, typ := SectionType.Null } }

/-! ### Basic lemmas -/

theorem SectionHeader.toBytes_length (h : SectionHeader) : h.toBytes.length = 5 := by
  simp [SectionHeader.toBytes, u16le]

theorem writeBytes_ok {buf : List Nat} {off : Nat} {bs buf' : List Nat}
    (h : writeBytes buf off bs = Except.ok buf') :
    buf'.length = buf.length ∧ off + bs.length ≤ buf.length := by
  unfold writeBytes at h
  split at h
  · cases h
    refine ⟨?_, by assumption⟩
    simp only [List.length_append, List.length_take, List.length_drop]
    omega
  · exact absurd h (by simp)

theorem update_sect_header_ok {s s2 : SectionWriter} {r : Nat × Nat}
    (h : s.update_sect_header = (s2, Except.ok r)) :
    s2.write_buf.length = s.write_buf.length ∧
    s.cur_header_pos + 5 ≤ s.write_buf.length ∧
    s2.cur_pos = s.cur_pos ∧ s2.cur_header_pos = s.cur_header_pos ∧
    s2.cur_header = s.cur_header ∧
    s2.max_elements_per_sect = s.max_elements_per_sect ∧
    r = (5, 0) := by
  unfold SectionWriter.update_sect_header at h
  split at h
  · next buf hw =>
    cases h
    have := writeBytes_ok hw
    rw [SectionHeader.toBytes_length] at this
    exact ⟨this.1, this.2, rfl, rfl, rfl, rfl, rfl⟩
  · cases h

theorem init_new_section_ok {s s2 : SectionWriter} {t : SectionType} {r : Nat × Nat}
    (h : s.init_new_section t = (s2, Except.ok r)) :
    s2.write_buf.length = s.write_buf.length ∧
    s2.cur_pos = s.cur_pos + 5 ∧
    s.cur_pos + 5 ≤ s.write_buf.length ∧
    s2.cur_header_pos = s.cur_pos ∧
    s2.cur_header = { num_bytes := 0, num_elements := 0, typ := t } ∧
    s2.max_elements_per_sect = s.max_elements_per_sect := by
  unfold SectionWriter.init_new_section at h
  split at h
  · next s3 bw u hu =>
    obtain ⟨hl, hb, hp, hhp, hch, hm, hr⟩ := update_sect_header_ok hu
    cases h
    obtain ⟨hbw, -⟩ := Prod.mk.injEq .. ▸ hr
    simp only at hl hb hp hhp hch hm ⊢
    subst hbw
    exact ⟨hl, by omega, by simpa using hb, by rw [hhp], hch, hm⟩
  · cases h

theorem writeBytes_error {buf : List Nat} {off : Nat} {bs : List Nat} {e : CodingError}
    (h : writeBytes buf off bs = Except.error e) :
    e = CodingError.NotEnoughSpace ∧ buf.length < off + bs.length := by
  unfold writeBytes at h
  split at h
  · cases h
  · cases h
    exact ⟨rfl, by omega⟩

theorem update_sect_header_error {s s2 : SectionWriter} {e : CodingError}
    (h : s.update_sect_header = (s2, Except.error e)) :
    e = CodingError.NotEnoughSpace ∧ s2 = s ∧
    s.write_buf.length < s.cur_header_pos + 5 := by
  unfold SectionWriter.update_sect_header at h
  split at h
  · cases h
  · next hw =>
    cases h
    have := writeBytes_error hw
    rw [SectionHeader.toBytes_length] at this
    exact ⟨this.1, rfl, this.2⟩

theorem init_new_section_error {s s2 : SectionWriter} {t : SectionType} {e : CodingError}
    (h : s.init_new_section t = (s2, Except.error e)) :
    e = CodingError.NotEnoughSpace ∧
    s2 = { s with cur_header := { num_bytes := 0, num_elements := 0, typ := t }
                  cur_header_pos := s.cur_pos } ∧
    s.write_buf.length < s.cur_pos + 5 := by
  unfold SectionWriter.init_new_section at h
  split at h
  · cases h
  · next hu =>
    cases h
    have := update_sect_header_error hu
    exact ⟨this.1, this.2.1, by simpa using this.2.2⟩

theorem add_64kb_of_pos_ne {s : SectionWriter} {t : SectionType} {f : Filler}
    (h : s.cur_pos ≠ 0) : s.add_64kb t f = s.addBody t f := by
  unfold SectionWriter.add_64kb
  rw [if_neg h]

theorem add_64kb_of_pos_zero {s s1 : SectionWriter} {t : SectionType} {f : Filler}
    {r : Nat × Nat} (h : s.cur_pos = 0)
    (hi : s.init_new_section t = (s1, Except.ok r)) :
    s.add_64kb t f = s1.addBody t f := by
  unfold SectionWriter.add_64kb
  rw [if_pos h]
  split
  · next hinit2 =>
    rw [hi] at hinit2
    cases hinit2
    rfl
  · next hinit2 =>
    rw [hi] at hinit2
    cases hinit2

theorem add_64kb_of_init_error {s s1 : SectionWriter} {t : SectionType} {f : Filler}
    {e : CodingError} (h : s.cur_pos = 0)
    (hi : s.init_new_section t = (s1, Except.error e)) :
    s.add_64kb t f = some (s1, Except.error e) := by
  unfold SectionWriter.add_64kb
  rw [if_pos h]
  split
  · next hinit2 =>
    rw [hi] at hinit2
    cases hinit2
  · next hinit2 =>
    rw [hi] at hinit2
    cases hinit2
    rfl

theorem addBody_filler_error {s : SectionWriter} {t : SectionType} {f : Filler}
    {err : CodingError}
    (hle : ¬ s.write_buf.length < s.cur_pos)
    (hf : f ((s.write_buf.drop s.cur_pos).take
              (min (65535 - s.cur_header.num_bytes)
                   (s.write_buf.length - s.cur_pos)))
            (s.max_elements_per_sect - s.cur_header.num_elements) =
          Except.error err)
    (hne : err ≠ CodingError.NotEnoughSpace) :
    s.addBody t f = some (s, Except.error err) := by
  unfold SectionWriter.addBody
  rw [if_neg hle]
  dsimp only
  rw [hf]
  cases err with
  | NotEnoughSpace => exact absurd rfl hne
  | InputTooShort => rfl
  | InvalidSectionType n => rfl
  | BadLengthField => rfl

theorem addBody_rollover_ok {s s2 : SectionWriter} {t : SectionType} {f : Filler}
    {r : Nat × Nat}
    (hle : ¬ s.write_buf.length < s.cur_pos)
    (hf : f ((s.write_buf.drop s.cur_pos).take
              (min (65535 - s.cur_header.num_bytes)
                   (s.write_buf.length - s.cur_pos)))
            (s.max_elements_per_sect - s.cur_header.num_elements) =
          Except.error CodingError.NotEnoughSpace)
    (hi : s.init_new_section t = (s2, Except.ok r)) :
    s.addBody t f = s2.add_64kb t f := by
  unfold SectionWriter.addBody
  rw [if_neg hle]
  dsimp only
  rw [hf]
  dsimp only
  split
  · next hroll2 =>
    rw [hi] at hroll2
    cases hroll2
    rfl
  · next hroll2 =>
    rw [hi] at hroll2
    cases hroll2

theorem addBody_rollover_error {s s2 : SectionWriter} {t : SectionType} {f : Filler}
    {e2 : CodingError}
    (hle : ¬ s.write_buf.length < s.cur_pos)
    (hf : f ((s.write_buf.drop s.cur_pos).take
              (min (65535 - s.cur_header.num_bytes)
                   (s.write_buf.length - s.cur_pos)))
            (s.max_elements_per_sect - s.cur_header.num_elements) =
          Except.error CodingError.NotEnoughSpace)
    (hi : s.init_new_section t = (s2, Except.error e2)) :
    s.addBody t f = some (s2, Except.error e2) := by
  unfold SectionWriter.addBody
  rw [if_neg hle]
  dsimp only
  rw [hf]
  dsimp only
  split
  · next hroll2 =>
    rw [hi] at hroll2
    cases hroll2
  · next hroll2 =>
    rw [hi] at hroll2
    cases hroll2
    rfl

theorem decVals_length {k : Nat} {bs vs rem : List Nat}
    (h : decVals k bs = some (vs, rem)) : vs.length = k := by
  induction k generalizing bs vs rem with
  | zero => unfold decVals at h; cases h; rfl
  | succ k ih =>
    unfold decVals at h
    match bs with
    | [] => simp at h
    | n :: rest =>
      simp only at h
      split at h
      · split at h
        · next vs2 rem2 hd =>
          cases h
          simp [ih hd]
        · cases h
      · cases h

theorem decodeLoop_length {n : Nat} {inbuf acc out : List Nat}
    (hdvd : 8 ∣ n) (h : decodeLoop inbuf n acc = Except.ok out) :
    out.length = acc.length + n := by
  induction n using Nat.strong_induction_on generalizing inbuf acc out with
  | _ n ih =>
    unfold decodeLoop at h
    split at h
    · cases h; omega
    · next hne =>
      split at h
      · next vs rem hu =>
        have h8 : 8 ≤ n := by
          rcases hdvd with ⟨c, rfl⟩
          rcases c with _ | c
          · omega
          · omega
        have hrec := ih (n - 8) (by omega) (by rcases hdvd with ⟨c, rfl⟩
                                               exact ⟨c - 1, by omega⟩) h
        have hvs : vs.length = 8 := by
          unfold unpack8_u32_simd at hu
          split at hu
          · next vs2 rem2 hd =>
            cases hu
            simp [decVals_length hd]
          · cases hu
        rw [hrec]
        simp [hvs]
        omega
      · cases h

theorem update_sect_header_of_le {s : SectionWriter}
    (h : s.cur_header_pos + 5 ≤ s.write_buf.length) :
    s.update_sect_header =
      ({ s with write_buf := s.write_buf.take s.cur_header_pos ++
                             s.cur_header.toBytes ++
                             s.write_buf.drop (s.cur_header_pos + 5) },
       Except.ok (5, 0)) := by
  unfold SectionWriter.update_sect_header writeBytes
  rw [SectionHeader.toBytes_length, if_pos h]

theorem addBody_filler_ok {s : SectionWriter} {t : SectionType} {f : Filler}
    {w : List Nat} {b e : Nat}
    (hle : ¬ s.write_buf.length < s.cur_pos)
    (hf : f ((s.write_buf.drop s.cur_pos).take
              (min (65535 - s.cur_header.num_bytes)
                   (s.write_buf.length - s.cur_pos)))
            (s.max_elements_per_sect - s.cur_header.num_elements) =
          Except.ok (w, b, e))
    (he : e ≤ s.max_elements_per_sect - s.cur_header.num_elements)
    (hh : s.cur_header_pos + 5 ≤ s.write_buf.length) :
    ∃ s2, s.addBody t f = some (s2, Except.ok (b, e)) ∧
      s2.cur_header.num_bytes = (s.cur_header.num_bytes + b) % 65536 ∧
      s2.cur_header.num_elements = (s.cur_header.num_elements + e) % 65536 ∧
      s2.cur_header.typ = s.cur_header.typ ∧
      s2.cur_pos = s.cur_pos + b ∧
      s2.cur_header_pos = s.cur_header_pos ∧
      s2.max_elements_per_sect = s.max_elements_per_sect ∧
      s2.write_buf.length = s.write_buf.length := by
  have hmin : min (65535 - s.cur_header.num_bytes) (s.write_buf.length - s.cur_pos) ≤
      s.write_buf.length - s.cur_pos := Nat.min_le_right _ _
  unfold SectionWriter.addBody
  rw [if_neg hle]
  dsimp only
  rw [hf]
  dsimp only
  rw [if_pos he]
  split
  · next s2 u hupd =>
    obtain ⟨hl, hb, hp, hhp, hch, hm, -⟩ := update_sect_header_ok hupd
    refine ⟨s2, rfl, ?_, ?_, ?_, ?_, ?_, ?_, ?_⟩
    · rw [hch]
    · rw [hch]
    · rw [hch]
    · rw [hp]
    · rw [hhp]
    · rw [hm]
    · rw [hl]
      simp only [List.length_append, List.length_take, List.length_drop,
                 List.length_replicate]
      omega
  · next s2 e2 hupd =>
    obtain ⟨-, -, hbad⟩ := update_sect_header_error hupd
    exfalso
    simp only [List.length_append, List.length_take, List.length_drop,
               List.length_replicate] at hbad
    omega

/-- A filler that refuses every offered window drives `addBody` through
repeated rollovers, consuming 5 bytes per fresh header, until header
initialization itself fails; the final outcome is `NotEnoughSpace`. -/
theorem addBody_allNES {f : Filler}
    (hf : ∀ w n, f w n = Except.error CodingError.NotEnoughSpace) :
    ∀ (m : Nat) (s : SectionWriter) (t : SectionType),
      s.write_buf.length + 1 - s.cur_pos ≤ m →
      s.cur_pos ≤ s.write_buf.length →
      ∃ s2, s.addBody t f = some (s2, Except.error CodingError.NotEnoughSpace) ∧
        s2.write_buf.length = s.write_buf.length ∧
        s.cur_pos ≤ s2.cur_pos ∧
        s2.write_buf.length < s2.cur_pos + 5 := by
  intro m
  induction m with
  | zero =>
    intro s t hm hle
    exact absurd hm (by omega)
  | succ m ih =>
    intro s t hm hle
    rcases hinit : s.init_new_section t with ⟨s2, res⟩
    cases res with
    | error e2 =>
      obtain ⟨rfl, hs2, hlen⟩ := init_new_section_error hinit
      refine ⟨s2, addBody_rollover_error (by omega) (hf _ _) hinit, ?_, ?_, ?_⟩
      · rw [hs2]
      · rw [hs2]
      · rw [hs2]
        simpa using hlen
    | ok r =>
      obtain ⟨hl2, hp2, hb2, -, -, -⟩ := init_new_section_ok hinit
      have step := addBody_rollover_ok (f := f) (by omega) (hf _ _) hinit
      rw [add_64kb_of_pos_ne (by omega)] at step
      obtain ⟨s3, h3, hl3, hp3, hb3⟩ := ih s2 t (by omega) (by omega)
      exact ⟨s3, step.trans h3, by omega, by omega, hb3⟩

/-! ### Claim C3 -/

/-- Claim C3 (amended): when a section is already initialized
(`cur_pos ≠ 0`, and the cursor is inside the buffer), a filler invocation that
returns an error other than `NotEnoughSpace` makes `add_64kb` return that
error unchanged with the writer state — in particular `cur_pos`,
`cur_header_pos` and the in-memory header — unmodified.  (On an uninitialized
writer the call first opens a section, mutating state, before the filler error
is propagated; see the counterexample.) -/
theorem c3_error_propagated_when_initialized (s : SectionWriter) (t : SectionType)
    (f : Filler) (err : CodingError)
    (h0 : s.cur_pos ≠ 0) (hle : s.cur_pos ≤ s.write_buf.length)
    (hf : f ((s.write_buf.drop s.cur_pos).take
              (min (65535 - s.cur_header.num_bytes)
                   (s.write_buf.length - s.cur_pos)))
            (s.max_elements_per_sect - s.cur_header.num_elements) =
          Except.error err)
    (hne : err ≠ CodingError.NotEnoughSpace) :
    s.add_64kb t f = some (s, Except.error err) := by
  rw [add_64kb_of_pos_ne h0]
  exact addBody_filler_error (by omega) hf hne

/-- Claim C3 counterexample: on a fresh writer (`cur_pos = 0`) with a filler
that fails with `InputTooShort`, the failing `add_64kb` call nevertheless
mutates the writer: a section is initialized first, so `cur_pos` moves from 0
to 5 (and the header bytes are written), before the filler error is
propagated.  The claim asserts the observable state is unmodified for every
SectionWriter state. -/
theorem c3_counterexample :
    (SectionWriter.new (List.replicate 16 0) 256).add_64kb SectionType.Null
        (fun _ _ => Except.error CodingError.InputTooShort) =
      some ({ write_buf := List.replicate 16 0, cur_pos := 5, cur_header_pos := 0,
              max_elements_per_sect := 256,
              cur_header := { num_bytes := 0, num_elements := 0,
                              typ := SectionType.Null } },
            Except.error CodingError.InputTooShort) ∧
    (SectionWriter.new (List.replicate 16 0) 256).cur_pos = 0 := by
  constructor
  · have e1 : (SectionWriter.new (List.replicate 16 0) 256).init_new_section
        SectionType.Null =
        ({ write_buf := List.replicate 16 0, cur_pos := 5, cur_header_pos := 0,
           max_elements_per_sect := 256,
           cur_header := { num_bytes := 0, num_elements := 0,
                           typ := SectionType.Null } }, Except.ok (5, 0)) := by
      decide
    rw [add_64kb_of_pos_zero rfl e1]
    exact addBody_filler_error (by decide) rfl (by decide)
  · rfl

/-- Witness for C3 (amended) at a concrete initialized state. -/
theorem c3_error_propagated_when_initialized_witness :
    ∃ s : SectionWriter, s.cur_pos ≠ 0 ∧ s.cur_pos ≤ s.write_buf.length ∧
      s.add_64kb SectionType.Null (fun _ _ => Except.error CodingError.BadLengthField) =
        some (s, Except.error CodingError.BadLengthField) :=
  ⟨{ write_buf := List.replicate 16 0, cur_pos := 5, cur_header_pos := 0,
     max_elements_per_sect := 256,
     cur_header := { num_bytes := 0, num_elements := 0, typ := SectionType.Null } },
   by decide, by decide,
   c3_error_propagated_when_initialized _ SectionType.Null _ _
     (by decide) (by decide) rfl (by decide)⟩

/-! ### Claim C2 -/

/-- Claim C2 (amended): with a filler that refuses all offered space
(`NotEnoughSpace` on every invocation), `add_64kb` does not surface the error
after a single rollover: it keeps rolling over, writing one fresh 5-byte
header per rollover, until header initialization itself fails, and only then
terminates returning `NotEnoughSpace` (so recursion is bounded by the buffer
length; the final state has no room for another header). -/
theorem c2_rollover_until_header_fails (s : SectionWriter) (t : SectionType)
    (f : Filler)
    (hf : ∀ w n, f w n = Except.error CodingError.NotEnoughSpace)
    (hle : s.cur_pos ≤ s.write_buf.length) :
    ∃ s2, s.add_64kb t f = some (s2, Except.error CodingError.NotEnoughSpace) ∧
      s2.write_buf.length = s.write_buf.length ∧
      s2.write_buf.length < s2.cur_pos + 5 := by
  by_cases h0 : s.cur_pos = 0
  · rcases hinit : s.init_new_section t with ⟨s1, res⟩
    cases res with
    | error e2 =>
      obtain ⟨rfl, hs1, hlen⟩ := init_new_section_error hinit
      refine ⟨s1, add_64kb_of_init_error h0 hinit, by rw [hs1], ?_⟩
      rw [hs1]
      simpa using hlen
    | ok r =>
      obtain ⟨hl1, hp1, hb1, -, -, -⟩ := init_new_section_ok hinit
      rw [add_64kb_of_pos_zero h0 hinit]
      obtain ⟨s2, h2, hl2, hp2, hb2⟩ :=
        addBody_allNES hf (s1.write_buf.length + 1 - s1.cur_pos) s1 t le_rfl (by omega)
      exact ⟨s2, h2, by omega, hb2⟩
  · rw [add_64kb_of_pos_ne h0]
    obtain ⟨s2, h2, hl2, hp2, hb2⟩ :=
      addBody_allNES hf (s.write_buf.length + 1 - s.cur_pos) s t le_rfl hle
    exact ⟨s2, h2, hl2, hb2⟩

/-- Claim C2 counterexample: on a 30-byte buffer with a filler that always
returns `NotEnoughSpace`, `add_64kb` performs five rollovers after the initial
section initialization (writing six 5-byte headers, at offsets 0, 5, 10, 15,
20 and 25) before header initialization fails and `NotEnoughSpace` is
surfaced: the final `cur_pos` is 30.  Under the claim — one new section per
`NotEnoughSpace`, with a second filler refusal surfaced to the caller — the
call would have stopped with `cur_pos = 10` after the single post-rollover
retry. -/
theorem c2_counterexample :
    (SectionWriter.new (List.replicate 30 0) 256).add_64kb SectionType.Null
        (fun _ _ => Except.error CodingError.NotEnoughSpace) =
      some (c2CexState 30 30, Except.error CodingError.NotEnoughSpace) := by
  have e1 : (SectionWriter.new (List.replicate 30 0) 256).init_new_section
      SectionType.Null = (c2CexState 5 0, Except.ok (5, 0)) := by decide
  have e2 : (c2CexState 5 0).init_new_section SectionType.Null =
      (c2CexState 10 5, Except.ok (5, 0)) := by decide
  have e3 : (c2CexState 10 5).init_new_section SectionType.Null =
      (c2CexState 15 10, Except.ok (5, 0)) := by decide
  have e4 : (c2CexState 15 10).init_new_section SectionType.Null =
      (c2CexState 20 15, Except.ok (5, 0)) := by decide
  have e5 : (c2CexState 20 15).init_new_section SectionType.Null =
      (c2CexState 25 20, Except.ok (5, 0)) := by decide
  have e6 : (c2CexState 25 20).init_new_section SectionType.Null =
      (c2CexState 30 25, Except.ok (5, 0)) := by decide
  have e7 : (c2CexState 30 25).init_new_section SectionType.Null =
      (c2CexState 30 30, Except.error CodingError.NotEnoughSpace) := by decide
  rw [add_64kb_of_pos_zero rfl e1]
  rw [addBody_rollover_ok (by decide) rfl e2, add_64kb_of_pos_ne (by decide)]
  rw [addBody_rollover_ok (by decide) rfl e3, add_64kb_of_pos_ne (by decide)]
  rw [addBody_rollover_ok (by decide) rfl e4, add_64kb_of_pos_ne (by decide)]
  rw [addBody_rollover_ok (by decide) rfl e5, add_64kb_of_pos_ne (by decide)]
  rw [addBody_rollover_ok (by decide) rfl e6, add_64kb_of_pos_ne (by decide)]
  rw [addBody_rollover_error (by decide) rfl e7]

/-- Witness for C2 (amended) on a concrete 7-byte buffer: the initial section
is opened at 0, the rollover header at 5 cannot be written (10 > 7), and
`NotEnoughSpace` is surfaced. -/
theorem c2_rollover_until_header_fails_witness :
    (SectionWriter.new (List.replicate 7 0) 256).cur_pos ≤
      (SectionWriter.new (List.replicate 7 0) 256).write_buf.length ∧
    ∃ s2, (SectionWriter.new (List.replicate 7 0) 256).add_64kb SectionType.Null
        (fun _ _ => Except.error CodingError.NotEnoughSpace) =
        some (s2, Except.error CodingError.NotEnoughSpace) ∧
      s2.write_buf.length = (SectionWriter.new (List.replicate 7 0) 256).write_buf.length ∧
      s2.write_buf.length < s2.cur_pos + 5 :=
  ⟨by decide,
   c2_rollover_until_header_fails (SectionWriter.new (List.replicate 7 0) 256)
     SectionType.Null _ (fun _ _ => rfl) (by decide)⟩

/-! ### Codec lemmas: the modelled nibble codec round-trips, and buffer
writes splice -/

theorem writeBytes_ok_split {buf : List Nat} {off : Nat} {bs buf' : List Nat}
    (h : writeBytes buf off bs = Except.ok buf') :
    buf' = buf.take off ++ bs ++ buf.drop (off + bs.length) ∧
    off + bs.length ≤ buf.length := by
  unfold writeBytes at h
  split at h
  · cases h
    exact ⟨rfl, by assumption⟩
  · cases h

theorem length_take_of_le {l : List Nat} {off : Nat} (h : off ≤ l.length) :
    (l.take off).length = off := by
  rw [List.length_take]
  omega

theorem take_of_splice {l : List Nat} {off : Nat} {bs : List Nat}
    (h : off + bs.length ≤ l.length) :
    (l.take off ++ bs ++ l.drop (off + bs.length)).take off = l.take off := by
  rw [List.append_assoc,
      List.take_append_of_le_length (by rw [length_take_of_le (by omega)]),
      List.take_take, Nat.min_self]

theorem drop_of_splice {l : List Nat} {off : Nat} {bs : List Nat}
    (h : off + bs.length ≤ l.length) :
    (l.take off ++ bs ++ l.drop (off + bs.length)).drop (off + bs.length) =
      l.drop (off + bs.length) := by
  apply List.drop_left'
  rw [List.length_append, length_take_of_le (by omega)]

theorem mid_of_splice {l : List Nat} {off : Nat} {bs : List Nat}
    (h : off + bs.length ≤ l.length) :
    ((l.take off ++ bs ++ l.drop (off + bs.length)).drop off).take bs.length = bs := by
  rw [List.append_assoc, List.drop_left' (length_take_of_le (by omega)),
      List.take_left' rfl]

theorem u16le_length (n : Nat) : (u16le n).length = 2 := rfl

theorem readU16LE_writeBytes {buf buf' : List Nat} {off n : Nat}
    (hw : writeBytes buf off (u16le n) = Except.ok buf') (hn : n ≤ 65535) :
    readU16LE buf' off = Except.ok n := by
  obtain ⟨hshape, hbound⟩ := writeBytes_ok_split hw
  rw [u16le_length] at hbound
  have hlen : buf'.length = buf.length := by
    rw [hshape]
    simp only [List.length_append, List.length_take, List.length_drop, u16le_length]
    omega
  unfold readU16LE
  rw [if_pos (by omega)]
  have hget0 : buf'.getD off 0 = n % 256 := by
    rw [hshape, List.append_assoc, List.getD_eq_getElem?_getD,
        List.getElem?_append_right (by rw [length_take_of_le (by omega)]),
        length_take_of_le (by omega)]
    simp [u16le]
  have hget1 : buf'.getD (off + 1) 0 = n / 256 % 256 := by
    rw [hshape, List.append_assoc, List.getD_eq_getElem?_getD,
        List.getElem?_append_right (by rw [length_take_of_le (by omega)]; omega),
        length_take_of_le (by omega)]
    simp only [show off + 1 - off = 1 by omega]
    simp [u16le]
  rw [hget0, hget1]
  congr 1
  omega

theorem fromLE_leBytes (v : Nat) : fromLE (leBytes v) = v := by
  induction v using Nat.strong_induction_on with
  | _ v ih =>
    unfold leBytes
    split
    · next hv => rw [hv]; rfl
    · next hv =>
      unfold fromLE
      rw [ih (v / 256) (Nat.div_lt_self (Nat.pos_of_ne_zero hv) (by omega))]
      omega

theorem encList_cons (v : Nat) (tl : List Nat) :
    encList (v :: tl) = (leBytes v).length :: (leBytes v ++ encList tl) := by
  simp only [encList, encVal, List.cons_append]

theorem encList_append (a b : List Nat) :
    encList (a ++ b) = encList a ++ encList b := by
  induction a with
  | nil => rfl
  | cons v rest ih =>
    simp only [List.cons_append, encList_cons, ih, List.append_assoc]

theorem encList_take_drop (l : List Nat) (n : Nat) :
    encList (l.take n) ++ encList (l.drop n) = encList l := by
  rw [← encList_append, List.take_append_drop]

theorem decVals_encList (c rest : List Nat) :
    decVals c.length (encList c ++ rest) = some (c, rest) := by
  induction c generalizing rest with
  | nil => rfl
  | cons v tl ih =>
    rw [encList_cons]
    show decVals (tl.length + 1) ((leBytes v).length :: (leBytes v ++ encList tl) ++ rest) =
      some (v :: tl, rest)
    unfold decVals
    simp only [List.cons_append, List.append_assoc]
    rw [if_pos (by simp only [List.length_append]; omega)]
    rw [List.take_append_of_le_length le_rfl, List.take_length,
        List.drop_left' rfl, ih rest, fromLE_leBytes]

theorem iterU64Sink_encList (c rest : List Nat) :
    IterU64Sink (encList c ++ rest) c.length = c := by
  induction c generalizing rest with
  | nil => simp [encList, IterU64Sink]
  | cons v tl ih =>
    rw [encList_cons]
    show IterU64Sink ((leBytes v).length :: (leBytes v ++ encList tl) ++ rest)
        (tl.length + 1) = v :: tl
    unfold IterU64Sink
    simp only [List.cons_append, List.append_assoc]
    rw [if_pos (by simp only [List.length_append]; omega)]
    rw [List.take_append_of_le_length le_rfl, List.take_length,
        List.drop_left' rfl, ih rest, fromLE_leBytes]

theorem drop_append_of_length {A C : List Nat} {n m : Nat} (h : A.length = n) :
    (A ++ C).drop (n + m) = C.drop m := by
  subst h
  simp [List.drop_append]

theorem splice_splice {buf : List Nat} {off : Nat} (E8 ER : List Nat)
    (h : off + E8.length ≤ buf.length) :
    (buf.take off ++ E8 ++ buf.drop (off + E8.length)).take (off + E8.length) ++ ER ++
      (buf.take off ++ E8 ++ buf.drop (off + E8.length)).drop
        (off + E8.length + ER.length) =
    buf.take off ++ (E8 ++ ER) ++ buf.drop (off + (E8.length + ER.length)) := by
  have hA : (buf.take off ++ E8).length = off + E8.length := by
    rw [List.length_append, length_take_of_le (by omega)]
  have htake : (buf.take off ++ E8 ++ buf.drop (off + E8.length)).take
      (off + E8.length) = buf.take off ++ E8 :=
    List.take_left' hA
  have hdrop : (buf.take off ++ E8 ++ buf.drop (off + E8.length)).drop
      (off + E8.length + ER.length) =
      buf.drop (off + (E8.length + ER.length)) := by
    rw [drop_append_of_length hA, List.drop_drop]
    congr 1
    omega
  rw [htake, hdrop]
  simp [List.append_assoc]

theorem nibble_pack8_ok {chunk buf : List Nat} {off : Nat} {buf1 : List Nat}
    {off1 : Nat} (h : nibble_pack8 chunk buf off = Except.ok (buf1, off1)) :
    writeBytes buf off (encList chunk) = Except.ok buf1 ∧
    off1 = off + (encList chunk).length := by
  unfold nibble_pack8 at h
  split at h
  · next hw =>
    cases h
    exact ⟨hw, rfl⟩
  · cases h

theorem pack_groups_spec :
    ∀ (n : Nat) (vals buf : List Nat) (off : Nat) (buf' : List Nat) (off' : Nat),
      vals.length ≤ n →
      pack_groups vals buf off = Except.ok (buf', off') →
      off' = off + (encList vals).length ∧
      buf' = buf.take off ++ encList vals ++
             buf.drop (off + (encList vals).length) ∧
      buf'.length = buf.length ∧
      (vals ≠ [] → off + (encList vals).length ≤ buf.length) := by
  intro n
  induction n with
  | zero =>
    intro vals buf off buf' off' hn h
    have hnil : vals = [] := List.eq_nil_of_length_eq_zero (by omega)
    subst hnil
    unfold pack_groups at h
    cases h
    refine ⟨by simp [encList], ?_, rfl, by intro hc; exact absurd rfl hc⟩
    simp [encList, List.take_append_drop]
  | succ n ih =>
    intro vals buf off buf' off' hn h
    match vals with
    | [] =>
      unfold pack_groups at h
      cases h
      refine ⟨by simp [encList], ?_, rfl, by intro hc; exact absurd rfl hc⟩
      simp [encList, List.take_append_drop]
    | v :: rest =>
      unfold pack_groups at h
      split at h
      · next buf1 off1 hp8 =>
        obtain ⟨hw, hoff1⟩ := nibble_pack8_ok hp8
        obtain ⟨hshape, hbound⟩ := writeBytes_ok_split hw
        have hlen1 : buf1.length = buf.length := (writeBytes_ok hw).1
        obtain ⟨ho, hb, hl, hbd⟩ := ih ((v :: rest).drop 8) buf1 off1 buf' off'
          (by
            simp only [List.length_drop, List.length_cons] at hn ⊢
            omega) h
        subst hoff1
        have hEV : encList (v :: rest) =
            encList ((v :: rest).take 8) ++ encList ((v :: rest).drop 8) :=
          (encList_take_drop (v :: rest) 8).symm
        have hEVlen : (encList (v :: rest)).length =
            (encList ((v :: rest).take 8)).length +
            (encList ((v :: rest).drop 8)).length := by
          rw [hEV, List.length_append]
        have hsplice := splice_splice (encList ((v :: rest).take 8))
          (encList ((v :: rest).drop 8)) hbound
        refine ⟨by omega, ?_, by rw [hl, hlen1], ?_⟩
        · rw [hb, hshape]
          have hidx : off + (encList ((v :: rest).take 8)).length +
              (encList ((v :: rest).drop 8)).length =
              off + ((encList ((v :: rest).take 8)).length +
                     (encList ((v :: rest).drop 8)).length) := by omega
          rw [hidx] at hsplice ⊢
          rw [hsplice, ← hEV]
          have hidx2 : off + ((encList ((v :: rest).take 8)).length +
              (encList ((v :: rest).drop 8)).length) =
              off + (encList (v :: rest)).length := by omega
          rw [hidx2]
        · intro hne
          by_cases hD : (v :: rest).drop 8 = []
          · have : (encList ((v :: rest).drop 8)).length = 0 := by
              rw [hD]
              rfl
            omega
          · have := hbd hD
            omega
      · cases h

theorem pack_groups_total :
    ∀ (n : Nat) (vals buf : List Nat) (off : Nat),
      vals.length ≤ n →
      off + (encList vals).length ≤ buf.length →
      pack_groups vals buf off =
        Except.ok (buf.take off ++ encList vals ++
                   buf.drop (off + (encList vals).length),
                   off + (encList vals).length) := by
  intro n
  induction n with
  | zero =>
    intro vals buf off hn hsp
    have hnil : vals = [] := List.eq_nil_of_length_eq_zero (by omega)
    subst hnil
    unfold pack_groups
    simp [encList, List.take_append_drop]
  | succ n ih =>
    intro vals buf off hn hsp
    match vals with
    | [] =>
      unfold pack_groups
      simp [encList, List.take_append_drop]
    | v :: rest =>
      have hEV : encList (v :: rest) =
          encList ((v :: rest).take 8) ++ encList ((v :: rest).drop 8) :=
        (encList_take_drop (v :: rest) 8).symm
      have hEVlen : (encList (v :: rest)).length =
          (encList ((v :: rest).take 8)).length +
          (encList ((v :: rest).drop 8)).length := by
        rw [hEV, List.length_append]
      have hE8len : off + (encList ((v :: rest).take 8)).length ≤ buf.length := by
        omega
      unfold pack_groups
      have hw : writeBytes buf off (encList ((v :: rest).take 8)) =
          Except.ok (buf.take off ++ encList ((v :: rest).take 8) ++
                     buf.drop (off + (encList ((v :: rest).take 8)).length)) := by
        unfold writeBytes
        rw [if_pos hE8len]
      have hp8 : nibble_pack8 ((v :: rest).take 8) buf off =
          Except.ok (buf.take off ++ encList ((v :: rest).take 8) ++
                     buf.drop (off + (encList ((v :: rest).take 8)).length),
                     off + (encList ((v :: rest).take 8)).length) := by
        unfold nibble_pack8
        rw [hw]
      rw [hp8]
      dsimp only
      have hlen1 : (buf.take off ++ encList ((v :: rest).take 8) ++
          buf.drop (off + (encList ((v :: rest).take 8)).length)).length =
          buf.length := by
        simp only [List.length_append, List.length_take, List.length_drop]
        omega
      have hrec := ih ((v :: rest).drop 8)
        (buf.take off ++ encList ((v :: rest).take 8) ++
         buf.drop (off + (encList ((v :: rest).take 8)).length))
        (off + (encList ((v :: rest).take 8)).length)
        (by
          simp only [List.length_drop, List.length_cons] at hn ⊢
          omega)
        (by
          rw [hlen1]
          omega)
      rw [hrec]
      have hsplice := splice_splice (encList ((v :: rest).take 8))
        (encList ((v :: rest).drop 8)) hE8len
      rw [hsplice, ← hEV]
      have hidx : off + ((encList ((v :: rest).take 8)).length +
          (encList ((v :: rest).drop 8)).length) =
          off + (encList (v :: rest)).length := by omega
      have hidx2 : off + (encList ((v :: rest).take 8)).length +
          (encList ((v :: rest).drop 8)).length =
          off + (encList (v :: rest)).length := by omega
      rw [hidx, hidx2]

theorem length_splice {l : List Nat} {off : Nat} {bs : List Nat}
    (h : off + bs.length ≤ l.length) :
    (l.take off ++ bs ++ l.drop (off + bs.length)).length = l.length := by
  simp only [List.length_append, List.length_take, List.length_drop]
  omega

theorem medFinishWrite_ok {buf : List Nat} {offset off : Nat} {buf2 : List Nat}
    {off2 : Nat} (h : medFinishWrite buf offset off = Except.ok (buf2, off2)) :
    off2 = off ∧ off - offset - 3 ≤ 65535 ∧
    writeBytes buf (offset + 1) (u16le (off - offset - 3)) = Except.ok buf2 := by
  unfold medFinishWrite at h
  dsimp only at h
  split at h
  · next hle =>
    split at h
    · next hw =>
      cases h
      exact ⟨rfl, hle, hw⟩
    · cases h
  · cases h

theorem medFinishWrite_error {buf : List Nat} {offset off : Nat}
    (h : 65535 < off - offset - 3) :
    medFinishWrite buf offset off = Except.error CodingError.NotEnoughSpace := by
  unfold medFinishWrite
  dsimp only
  rw [if_neg (by omega)]

theorem medFinishWrite_total {buf : List Nat} {offset off : Nat}
    (h1 : off - offset - 3 ≤ 65535) (h2 : offset + 3 ≤ buf.length) :
    medFinishWrite buf offset off =
      Except.ok (buf.take (offset + 1) ++ u16le (off - offset - 3) ++
                 buf.drop (offset + 3), off) := by
  unfold medFinishWrite
  dsimp only
  rw [if_pos h1]
  have hw : writeBytes buf (offset + 1) (u16le (off - offset - 3)) =
      Except.ok (buf.take (offset + 1) ++ u16le (off - offset - 3) ++
                 buf.drop (offset + 3)) := by
    unfold writeBytes
    rw [u16le_length]
    rw [show offset + 1 + 2 = offset + 3 by omega]
    rw [if_pos (by omega)]
  rw [hw]

theorem writeU64_decomp {out_buf : List Nat} {offset : Nat} {values buf' : List Nat}
    {off' : Nat}
    (h : NibblePackU64MedFixedSect.write out_buf offset values =
         some (Except.ok (buf', off'))) :
    values.length = 256 ∧
    ∃ buf0 buf1,
      writeBytes out_buf offset [1] = Except.ok buf0 ∧
      pack_groups values buf0 (offset + 3) = Except.ok (buf1, off') ∧
      medFinishWrite buf1 offset off' = Except.ok (buf', off') := by
  unfold NibblePackU64MedFixedSect.write at h
  split at h
  · next hv =>
    injection h with h
    refine ⟨hv, ?_⟩
    split at h
    · cases h
    · next buf0 hw0 =>
      split at h
      · cases h
      · next buf1 off1 hpack =>
        obtain ⟨ho, -, -⟩ := medFinishWrite_ok h
        subst ho
        exact ⟨buf0, buf1, hw0, hpack, h⟩
  · cases h

theorem writeU32_decomp {out_buf : List Nat} {offset : Nat} {values buf' : List Nat}
    {off' : Nat}
    (h : NibblePackU32MedFixedSect.write out_buf offset values =
         some (Except.ok (buf', off'))) :
    values.length = 256 ∧
    ∃ buf0 buf1,
      writeBytes out_buf offset [2] = Except.ok buf0 ∧
      pack_groups values buf0 (offset + 3) = Except.ok (buf1, off') ∧
      medFinishWrite buf1 offset off' = Except.ok (buf', off') := by
  unfold NibblePackU32MedFixedSect.write at h
  split at h
  · next hv =>
    injection h with h
    refine ⟨hv, ?_⟩
    split at h
    · cases h
    · next buf0 hw0 =>
      split at h
      · cases h
      · next buf1 off1 hpack =>
        obtain ⟨ho, -, -⟩ := medFinishWrite_ok h
        subst ho
        unfold pack_u64 at hpack
        exact ⟨buf0, buf1, hw0, hpack, h⟩
  · cases h

/-- The payload region of a successful Medium write: bytes `offset + 3 ..` of
the result hold the nibble-packed encoding of the values followed by the
untouched tail of the tag-write result. -/
theorem medWrite_payload {out_buf buf0 buf1 buf' : List Nat} {offset off' : Nat}
    {values : List Nat} {tag : Nat}
    (hv : values.length = 256)
    (hw0 : writeBytes out_buf offset [tag] = Except.ok buf0)
    (hpack : pack_groups values buf0 (offset + 3) = Except.ok (buf1, off'))
    (hfin : medFinishWrite buf1 offset off' = Except.ok (buf', off')) :
    buf'.drop (offset + 3) = encList values ++ buf0.drop off' ∧
    off' = offset + 3 + (encList values).length ∧
    buf'.length = out_buf.length ∧
    offset + 3 + (encList values).length ≤ out_buf.length := by
  have hvne : values ≠ [] := by
    intro hc
    rw [hc] at hv
    cases hv
  obtain ⟨ho', hb1, hl1, hbd⟩ :=
    pack_groups_spec values.length values buf0 (offset + 3) buf1 off' le_rfl hpack
  have hbd2 := hbd hvne
  have hl0 : buf0.length = out_buf.length := (writeBytes_ok hw0).1
  obtain ⟨-, -, hwfin⟩ := medFinishWrite_ok hfin
  obtain ⟨hshape', hbound'⟩ := writeBytes_ok_split hwfin
  rw [u16le_length] at hbound'
  have hdrop' : buf'.drop (offset + 3) = buf1.drop (offset + 3) := by
    rw [hshape']
    rw [show offset + 3 = offset + 1 + (u16le (off' - offset - 3)).length by
      rw [u16le_length]]
    exact drop_of_splice (by rw [u16le_length]; omega)
  have hdrop1 : buf1.drop (offset + 3) = encList values ++ buf0.drop off' := by
    rw [hb1, ho', List.append_assoc]
    exact List.drop_left' (length_take_of_le (by omega))
  refine ⟨hdrop'.trans hdrop1, ho', ?_, by omega⟩
  rw [hshape']
  rw [length_splice (by rw [u16le_length]; omega), hl1, hl0]

theorem map_mod_eq_self {c : List Nat} (h : ∀ v ∈ c, v < 4294967296) :
    c.map (fun v => v % 4294967296) = c := by
  induction c with
  | nil => rfl
  | cons v tl ih =>
    simp only [List.map_cons]
    rw [Nat.mod_eq_of_lt (h v (List.mem_cons_self v tl)),
        ih (fun u hu => h u (List.mem_cons_of_mem v hu))]

theorem decodeLoop_encList :
    ∀ (k : Nat) (c rest acc : List Nat),
      c.length = 8 * k →
      (∀ v ∈ c, v < 4294967296) →
      decodeLoop (encList c ++ rest) (8 * k) acc = Except.ok (acc ++ c) := by
  intro k
  induction k with
  | zero =>
    intro c rest acc hlen hb
    have hnil : c = [] := List.eq_nil_of_length_eq_zero (by omega)
    subst hnil
    unfold decodeLoop
    rw [if_pos rfl]
    simp [encList]
  | succ k ih =>
    intro c rest acc hlen hb
    have hEV : encList c = encList (c.take 8) ++ encList (c.drop 8) :=
      (encList_take_drop c 8).symm
    have ht8 : (c.take 8).length = 8 := by
      rw [List.length_take]
      omega
    have hd := decVals_encList (c.take 8) (encList (c.drop 8) ++ rest)
    rw [ht8] at hd
    have hu : unpack8_u32_simd (encList (c.take 8) ++ (encList (c.drop 8) ++ rest)) =
        Except.ok (c.take 8, encList (c.drop 8) ++ rest) := by
      unfold unpack8_u32_simd
      rw [hd]
      dsimp only
      rw [map_mod_eq_self (fun v hv => hb v (List.mem_of_mem_take hv))]
    unfold decodeLoop
    rw [if_neg (by omega)]
    rw [hEV, List.append_assoc]
    rw [hu]
    dsimp only
    rw [show 8 * (k + 1) - 8 = 8 * k by omega]
    rw [ih (c.drop 8) rest (acc ++ c.take 8)
        (by rw [List.length_drop]; omega)
        (fun v hv => hb v (List.mem_of_mem_drop hv))]
    rw [List.append_assoc, List.take_append_drop]

theorem encVal_zero : encVal 0 = [0] := by
  unfold encVal
  rw [show leBytes 0 = [] by unfold leBytes; simp]
  rfl

theorem encList_replicate_zero (n : Nat) :
    encList (List.replicate n 0) = List.replicate n 0 := by
  induction n with
  | zero => rfl
  | succ n ih =>
    have hcons : encList (0 :: List.replicate n 0) =
        encVal 0 ++ encList (List.replicate n 0) := by
      simp only [encList]
    rw [List.replicate_succ, hcons, encVal_zero, ih]
    rfl

theorem writeU64_total {out_buf : List Nat} {offset : Nat} {values : List Nat}
    (hv : values.length = 256)
    (hsp : offset + 3 + (encList values).length ≤ out_buf.length)
    (hnb : (encList values).length ≤ 65535) :
    ∃ buf', NibblePackU64MedFixedSect.write out_buf offset values =
        some (Except.ok (buf', offset + 3 + (encList values).length)) := by
  unfold NibblePackU64MedFixedSect.write
  rw [if_pos (by rw [hv]; rfl)]
  have hw0 : writeBytes out_buf offset [SectionType.NibblePackedU64Medium.as_num] =
      Except.ok (out_buf.take offset ++ [SectionType.NibblePackedU64Medium.as_num] ++
                 out_buf.drop (offset + 1)) := by
    unfold writeBytes
    rw [show ([SectionType.NibblePackedU64Medium.as_num] : List Nat).length = 1
        from rfl]
    rw [if_pos (by omega)]
  have hlen0 : (out_buf.take offset ++ [SectionType.NibblePackedU64Medium.as_num] ++
      out_buf.drop (offset + 1)).length = out_buf.length := by
    have := @length_splice out_buf offset [SectionType.NibblePackedU64Medium.as_num] (by
        rw [show ([SectionType.NibblePackedU64Medium.as_num] : List Nat).length = 1
            from rfl]
        omega)
    rw [show offset + ([SectionType.NibblePackedU64Medium.as_num] : List Nat).length
        = offset + 1 from rfl] at this
    exact this
  rw [hw0]
  dsimp only
  have hpk := pack_groups_total values.length values
    (out_buf.take offset ++ [SectionType.NibblePackedU64Medium.as_num] ++
     out_buf.drop (offset + 1)) (offset + 3) le_rfl (by rw [hlen0]; omega)
  rw [hpk]
  dsimp only
  have hlen1 : ((out_buf.take offset ++ [SectionType.NibblePackedU64Medium.as_num] ++
      out_buf.drop (offset + 1)).take (offset + 3) ++ encList values ++
      (out_buf.take offset ++ [SectionType.NibblePackedU64Medium.as_num] ++
       out_buf.drop (offset + 1)).drop (offset + 3 + (encList values).length)).length =
      out_buf.length := by
    rw [length_splice (by rw [hlen0]; omega), hlen0]
  rw [medFinishWrite_total (by omega) (by rw [hlen1]; omega)]
  exact ⟨_, rfl⟩

theorem writeU32_total {out_buf : List Nat} {offset : Nat} {values : List Nat}
    (hv : values.length = 256)
    (hsp : offset + 3 + (encList values).length ≤ out_buf.length)
    (hnb : (encList values).length ≤ 65535) :
    ∃ buf', NibblePackU32MedFixedSect.write out_buf offset values =
        some (Except.ok (buf', offset + 3 + (encList values).length)) := by
  unfold NibblePackU32MedFixedSect.write
  rw [if_pos (by rw [hv]; rfl)]
  have hw0 : writeBytes out_buf offset [SectionType.NibblePackedU32Medium.as_num] =
      Except.ok (out_buf.take offset ++ [SectionType.NibblePackedU32Medium.as_num] ++
                 out_buf.drop (offset + 1)) := by
    unfold writeBytes
    rw [show ([SectionType.NibblePackedU32Medium.as_num] : List Nat).length = 1
        from rfl]
    rw [if_pos (by omega)]
  have hlen0 : (out_buf.take offset ++ [SectionType.NibblePackedU32Medium.as_num] ++
      out_buf.drop (offset + 1)).length = out_buf.length := by
    have := @length_splice out_buf offset [SectionType.NibblePackedU32Medium.as_num] (by
        rw [show ([SectionType.NibblePackedU32Medium.as_num] : List Nat).length = 1
            from rfl]
        omega)
    rw [show offset + ([SectionType.NibblePackedU32Medium.as_num] : List Nat).length
        = offset + 1 from rfl] at this
    exact this
  rw [hw0]
  dsimp only
  unfold pack_u64
  have hpk := pack_groups_total values.length values
    (out_buf.take offset ++ [SectionType.NibblePackedU32Medium.as_num] ++
     out_buf.drop (offset + 1)) (offset + 3) le_rfl (by rw [hlen0]; omega)
  rw [hpk]
  dsimp only
  have hlen1 : ((out_buf.take offset ++ [SectionType.NibblePackedU32Medium.as_num] ++
      out_buf.drop (offset + 1)).take (offset + 3) ++ encList values ++
      (out_buf.take offset ++ [SectionType.NibblePackedU32Medium.as_num] ++
       out_buf.drop (offset + 1)).drop (offset + 3 + (encList values).length)).length =
      out_buf.length := by
    rw [length_splice (by rw [hlen0]; omega), hlen0]
  rw [medFinishWrite_total (by omega) (by rw [hlen1]; omega)]
  exact ⟨_, rfl⟩

/-! ### Claim C6 -/

/-- Claim C6: after a successful Medium write (u64 or u32), the little-endian
u16 read back at `offset + 1` equals `new_offset - offset - 3`, which is at
most 65535; and the length-writing tail of both writers fails with
`NotEnoughSpace` instead of writing a length whenever the computed payload
length exceeds 65535 (the length is written last). -/
theorem c6_length_field_consistency :
    (∀ (out_buf : List Nat) (offset : Nat) (values buf' : List Nat) (off' : Nat),
      NibblePackU64MedFixedSect.write out_buf offset values =
        some (Except.ok (buf', off')) →
      readU16LE buf' (offset + 1) = Except.ok (off' - offset - 3) ∧
      off' - offset - 3 ≤ 65535) ∧
    (∀ (out_buf : List Nat) (offset : Nat) (values buf' : List Nat) (off' : Nat),
      NibblePackU32MedFixedSect.write out_buf offset values =
        some (Except.ok (buf', off')) →
      readU16LE buf' (offset + 1) = Except.ok (off' - offset - 3) ∧
      off' - offset - 3 ≤ 65535) ∧
    (∀ (buf : List Nat) (offset off : Nat), 65535 < off - offset - 3 →
      medFinishWrite buf offset off = Except.error CodingError.NotEnoughSpace) := by
  refine ⟨?_, ?_, fun buf offset off h => medFinishWrite_error h⟩
  · intro out_buf offset values buf' off' h
    obtain ⟨hv, buf0, buf1, hw0, hpack, hfin⟩ := writeU64_decomp h
    obtain ⟨-, hle, hwfin⟩ := medFinishWrite_ok hfin
    exact ⟨readU16LE_writeBytes hwfin hle, hle⟩
  · intro out_buf offset values buf' off' h
    obtain ⟨hv, buf0, buf1, hw0, hpack, hfin⟩ := writeU32_decomp h
    obtain ⟨-, hle, hwfin⟩ := medFinishWrite_ok hfin
    exact ⟨readU16LE_writeBytes hwfin hle, hle⟩

/-- Witness for C6: writing 256 zero u64 values at offset 0 of a 300-byte
buffer ends at offset 259, and the u16 at offset 1 reads back 256 = 259-0-3. -/
theorem c6_length_field_consistency_witness :
    ∃ buf', NibblePackU64MedFixedSect.write (List.replicate 300 0) 0
        (List.replicate 256 0) = some (Except.ok (buf', 259)) ∧
      readU16LE buf' 1 = Except.ok 256 ∧ (256 : Nat) ≤ 65535 := by
  have hE : (encList (List.replicate 256 0)).length = 256 := by
    rw [encList_replicate_zero, List.length_replicate]
  obtain ⟨buf', hw⟩ := @writeU64_total (List.replicate 300 0) 0
    (List.replicate 256 0) (by rw [List.length_replicate])
    (by rw [hE, List.length_replicate]; omega) (by rw [hE]; omega)
  rw [show 0 + 3 + (encList (List.replicate 256 0)).length = 259 by
    rw [hE]] at hw
  have hc := (c6_length_field_consistency.1 (List.replicate 300 0) 0
    (List.replicate 256 0) buf' 259 hw).1
  exact ⟨buf', hw, hc, by omega⟩

/-! ### Claim C1 -/

/-- Claim C1: round-trip.  For every 256-value input on which the Medium write
succeeds, decoding the written section through the matching reader yields
exactly the original values in order: the u64 iterator over `sect_bytes[3..]`
(with `sect_bytes` the output from the section start) reproduces a u64 input,
and `decode_to_sink` into the utility u32 sink reproduces a u32 input. -/
theorem c1_medium_write_roundtrip :
    (∀ (out_buf : List Nat) (offset : Nat) (values buf' : List Nat) (off' : Nat),
      (∀ v ∈ values, v < 18446744073709551616) →
      NibblePackU64MedFixedSect.write out_buf offset values =
        some (Except.ok (buf', off')) →
      IterU64Sink ((buf'.drop offset).drop 3) FIXED_LEN = values) ∧
    (∀ (out_buf : List Nat) (offset : Nat) (values buf' : List Nat) (off' : Nat),
      (∀ v ∈ values, v < 4294967296) →
      NibblePackU32MedFixedSect.write out_buf offset values =
        some (Except.ok (buf', off')) →
      NibblePackU32MedFixedSect.decode_to_sink (buf'.drop offset) =
        some (Except.ok values)) := by
  constructor
  · intro out_buf offset values buf' off' hbound h
    obtain ⟨hv, buf0, buf1, hw0, hpack, hfin⟩ := writeU64_decomp h
    obtain ⟨hpay, ho', hlen', hsp⟩ := medWrite_payload hv hw0 hpack hfin
    rw [List.drop_drop, hpay]
    rw [show FIXED_LEN = values.length by rw [hv]; rfl]
    exact iterU64Sink_encList values (buf0.drop off')
  · intro out_buf offset values buf' off' hbound h
    obtain ⟨hv, buf0, buf1, hw0, hpack, hfin⟩ := writeU32_decomp h
    obtain ⟨hpay, ho', hlen', hsp⟩ := medWrite_payload hv hw0 hpack hfin
    unfold NibblePackU32MedFixedSect.decode_to_sink
    rw [if_neg (by rw [List.length_drop, hlen']; omega)]
    rw [List.drop_drop, hpay]
    rw [show FIXED_LEN = 8 * 32 from rfl]
    rw [decodeLoop_encList 32 values (buf0.drop off') [] (by rw [hv])
        (fun v hv2 => hbound v hv2)]
    rw [List.nil_append]

/-- Witness for C1: 256 zero values round-trip through both Medium writers on
300-byte buffers. -/
theorem c1_medium_write_roundtrip_witness :
    ∃ bufA bufB,
      NibblePackU64MedFixedSect.write (List.replicate 300 0) 0
        (List.replicate 256 0) = some (Except.ok (bufA, 259)) ∧
      IterU64Sink ((bufA.drop 0).drop 3) FIXED_LEN = List.replicate 256 0 ∧
      NibblePackU32MedFixedSect.write (List.replicate 300 0) 0
        (List.replicate 256 0) = some (Except.ok (bufB, 259)) ∧
      NibblePackU32MedFixedSect.decode_to_sink (bufB.drop 0) =
        some (Except.ok (List.replicate 256 0)) := by
  have hE : (encList (List.replicate 256 0)).length = 256 := by
    rw [encList_replicate_zero, List.length_replicate]
  have h259 : 0 + 3 + (encList (List.replicate 256 0)).length = 259 := by
    rw [hE]
  obtain ⟨bufA, hwA⟩ := @writeU64_total (List.replicate 300 0) 0
    (List.replicate 256 0) (by rw [List.length_replicate])
    (by rw [hE, List.length_replicate]; omega) (by rw [hE]; omega)
  obtain ⟨bufB, hwB⟩ := @writeU32_total (List.replicate 300 0) 0
    (List.replicate 256 0) (by rw [List.length_replicate])
    (by rw [hE, List.length_replicate]; omega) (by rw [hE]; omega)
  rw [h259] at hwA hwB
  have hb64 : ∀ v ∈ List.replicate 256 (0 : Nat), v < 18446744073709551616 := by
    intro v hv
    rw [List.eq_of_mem_replicate hv]
    omega
  have hb32 : ∀ v ∈ List.replicate 256 (0 : Nat), v < 4294967296 := by
    intro v hv
    rw [List.eq_of_mem_replicate hv]
    omega
  exact ⟨bufA, bufB, hwA,
    c1_medium_write_roundtrip.1 (List.replicate 300 0) 0 (List.replicate 256 0)
      bufA 259 hb64 hwA,
    hwB,
    c1_medium_write_roundtrip.2 (List.replicate 300 0) 0 (List.replicate 256 0)
      bufB 259 hb32 hwB⟩

/-! ### Claim C5 -/

theorem c5_write_first :
    NibblePackU64MedFixedSect.write (List.replicate 65536 0) 0
        (List.replicate 256 0) =
      some (Except.ok (1 :: 0 :: 1 :: List.replicate 65533 0, 259)) := by
  have hE : encList (List.replicate 256 0) = List.replicate 256 0 :=
    encList_replicate_zero 256
  have hElen : (encList (List.replicate 256 0)).length = 256 := by
    rw [hE, List.length_replicate]
  have hw0 : writeBytes (List.replicate 65536 (0 : Nat)) 0
      [SectionType.NibblePackedU64Medium.as_num] =
      Except.ok (1 :: List.replicate 65535 0) := by
    unfold writeBytes
    rw [if_pos (by
      rw [show ([SectionType.NibblePackedU64Medium.as_num] : List Nat).length = 1
          from rfl, List.length_replicate]
      omega)]
    rw [List.take_zero, List.nil_append,
        show (0 : Nat) + ([SectionType.NibblePackedU64Medium.as_num] : List Nat).length
          = 1 from rfl,
        List.drop_replicate]
    rfl
  have hpk := pack_groups_total 256 (List.replicate 256 0)
    (1 :: List.replicate 65535 0) (0 + 3) (by rw [List.length_replicate])
    (by rw [hElen, List.length_cons, List.length_replicate]; omega)
  unfold NibblePackU64MedFixedSect.write
  rw [if_pos (by rw [List.length_replicate]; rfl), hw0]
  split
  · next heq => cases heq
  · next buf0 heq =>
    cases heq
    rw [hpk]
    split
    · next heq2 => cases heq2
    · next buf1 off1 heq2 =>
      rw [show (Except.ok ((1 :: List.replicate 65535 (0 : Nat)).take (0 + 3) ++
            encList (List.replicate 256 0) ++
            (1 :: List.replicate 65535 (0 : Nat)).drop
              (0 + 3 + (encList (List.replicate 256 0)).length),
            0 + 3 + (encList (List.replicate 256 0)).length) :
          Except CodingError (List Nat × Nat)) =
          Except.ok (1 :: 0 :: 0 :: List.replicate 65533 (0 : Nat), 259) from ?_] at heq2
      · cases heq2
        rw [medFinishWrite_total (by omega)
          (by rw [List.length_cons, List.length_cons, List.length_cons,
                  List.length_replicate]; omega)]
        have hfinal : (1 :: 0 :: 0 :: List.replicate 65533 (0 : Nat)).take (0 + 1) ++
            u16le (259 - 0 - 3) ++
            (1 :: 0 :: 0 :: List.replicate 65533 (0 : Nat)).drop (0 + 3) =
            1 :: 0 :: 1 :: List.replicate 65533 0 := by
          rfl
        rw [hfinal]
      · have hb1 : (1 :: List.replicate 65535 (0 : Nat)).take (0 + 3) ++
            encList (List.replicate 256 0) ++
            (1 :: List.replicate 65535 (0 : Nat)).drop
              (0 + 3 + (encList (List.replicate 256 0)).length) =
            1 :: 0 :: 0 :: List.replicate 65533 0 := by
          rw [hElen, hE]
          have htk : (1 :: List.replicate 65535 (0 : Nat)).take (0 + 3) = [1, 0, 0] := by
            rw [show (0 + 3 : Nat) = 2 + 1 from rfl, List.take_succ_cons,
                List.take_replicate]
            rfl
          have hdr : (1 :: List.replicate 65535 (0 : Nat)).drop (0 + 3 + 256) =
              List.replicate 65277 0 := by
            rw [show (0 + 3 + 256 : Nat) = 258 + 1 from rfl, List.drop_succ_cons,
                List.drop_replicate]
          rw [htk, hdr, List.append_assoc, ← List.replicate_add]
          rfl
        rw [hb1]
        rw [show (0 + 3 : Nat) + (encList (List.replicate 256 0)).length = 259 by
          rw [hElen]]

theorem replicate_getElem_zero (n j : Nat) (h : j < n) :
    (List.replicate n (0 : Nat))[j]? = some 0 := by
  rw [List.getElem?_eq_getElem (by rw [List.length_replicate]; exact h)]
  rw [List.getElem_replicate]

/-- Every byte of the written buffer from offset 259 on is zero. -/
theorem c5_buf_zeros (i : Nat) (h1 : 259 ≤ i) (h2 : i < 65536) :
    (1 :: 0 :: 1 :: List.replicate 65533 (0 : Nat))[i]? = some 0 := by
  rw [show (1 :: 0 :: 1 :: List.replicate 65533 (0 : Nat)) =
      [1, 0, 1] ++ List.replicate 65533 0 from rfl]
  rw [List.getElem?_append_right (by
    rw [show ([1, 0, 1] : List Nat).length = 3 from rfl]
    omega)]
  rw [show ([1, 0, 1] : List Nat).length = 3 from rfl]
  exact replicate_getElem_zero 65533 (i - 3) (by omega)

/-- A null-section write over a zero byte leaves the buffer unchanged and
advances the offset by one. -/
theorem nullWrite_zero (B : List Nat) (p : Nat) (hp : p < B.length)
    (h0 : B[p]? = some 0) :
    NullFixedSect.write B p = Except.ok (B, p + 1) := by
  rw [List.getElem?_eq_getElem hp] at h0
  injection h0 with hEl
  have hd := List.drop_eq_getElem_cons hp
  rw [hEl] at hd
  have hw : writeBytes B p [SectionType.Null.as_num] = Except.ok B := by
    unfold writeBytes
    rw [if_pos (by rw [List.length_singleton]; omega)]
    rw [show ([SectionType.Null.as_num] : List Nat) = [0] from rfl,
        List.length_singleton, List.append_assoc, List.singleton_append, ← hd,
        List.take_append_drop]
  unfold NullFixedSect.write
  rw [hw]

/-- A run of `k` null-section writes over an all-zero region of the buffer
leaves the buffer unchanged and advances the offset by `k`. -/
theorem writeSeq_nulls (k : Nat) :
    ∀ (B : List Nat) (p : Nat), p + k ≤ B.length →
      (∀ i, p ≤ i → i < p + k → B[i]? = some 0) →
      writeSeq (List.replicate k WOp.wnull) B p =
        some (Except.ok (B, p + k)) := by
  induction k with
  | zero =>
    intro B p _ _
    rfl
  | succ n ih =>
    intro B p hlen hz
    rw [List.replicate_succ]
    simp only [writeSeq]
    rw [nullWrite_zero B p (by omega) (hz p (le_refl p) (by omega))]
    have hrest := ih B (p + 1) (by omega)
      (fun i hi1 hi2 => hz i (by omega) (by omega))
    show writeSeq (List.replicate n WOp.wnull) B (p + 1) =
      some (Except.ok (B, p + (n + 1)))
    rw [show p + (n + 1) = p + 1 + n from by omega]
    exact hrest

/-- Peeling a successful u64 Medium write off a write sequence. -/
theorem writeSeq_u64_ok (vals : List Nat) (ops : List WOp)
    (buf buf1 : List Nat) (off off1 : Nat)
    (hw : NibblePackU64MedFixedSect.write buf off vals =
      some (Except.ok (buf1, off1))) :
    writeSeq (WOp.wu64 vals :: ops) buf off = writeSeq ops buf1 off1 := by
  simp only [writeSeq]
  rw [hw]

/-- One-tag dispatch of `FixedSectEnum.try_from` on a u64-Medium section. -/
theorem try_from_cons_one (rest : List Nat) :
    FixedSectEnum.try_from (1 :: rest) =
      (NibblePackU64MedFixedSect.try_from (1 :: rest)).map FixedSectEnum.NPU64 :=
  rfl

/-- The u64 Medium constructor rejects a slice whose truncated length check
fails. -/
theorem npu64_try_from_bad (s : List Nat) (n : Nat)
    (hr : readU16LE s 1 = Except.ok n)
    (hn : ¬ (n + 3) % 65536 ≤ s.length % 65536) :
    NibblePackU64MedFixedSect.try_from s =
      Except.error CodingError.BadLengthField := by
  unfold NibblePackU64MedFixedSect.try_from
  rw [hr]
  show (if (n + 3) % 65536 ≤ s.length % 65536
        then Except.ok ({ encoded_bytes := n } : NibblePackU64MedFixedSect)
        else Except.error CodingError.BadLengthField) =
      Except.error CodingError.BadLengthField
  rw [if_neg hn]

/-- Claim C5: refuted.  A sequence of 65278 successful fixed-section writes
(one u64 Medium section of 256 zero values, then 65277 null sections) fills a
65536-byte buffer exactly, yet `FixedSectIterator` over the written bytes
yields NO items instead of one per section: `try_from` casts the 65536-byte
slice length to `u16` (65536 mod 65536 = 0), so its length check `259 <= 0`
fails with `BadLengthField` and the iterator stops before the first item,
violating both one-item-per-written-section and byte conservation. -/
theorem c5_iterator_conservation_fails :
    writeSeq
        (WOp.wu64 (List.replicate 256 0) :: List.replicate 65277 WOp.wnull)
        (List.replicate 65536 0) 0 =
      some (Except.ok (1 :: 0 :: 1 :: List.replicate 65533 0, 65536)) ∧
    (1 :: 0 :: 1 :: List.replicate 65533 (0 : Nat)).length = 65536 ∧
    sectList (1 :: 0 :: 1 :: List.replicate 65533 0) = some [] := by
  have hlen : (1 :: 0 :: 1 :: List.replicate 65533 (0 : Nat)).length = 65536 := by
    rw [List.length_cons, List.length_cons, List.length_cons,
        List.length_replicate]
  refine ⟨?_, hlen, ?_⟩
  · rw [writeSeq_u64_ok (List.replicate 256 0) (List.replicate 65277 WOp.wnull)
      (List.replicate 65536 0) (1 :: 0 :: 1 :: List.replicate 65533 0) 0 259
      c5_write_first]
    rw [writeSeq_nulls 65277 (1 :: 0 :: 1 :: List.replicate 65533 0) 259
      (by rw [hlen]) (fun i h1 h2 => c5_buf_zeros i h1 (by omega))]
  · have hread : readU16LE (1 :: 0 :: 1 :: List.replicate 65533 0) 1 =
        Except.ok 256 := by
      unfold readU16LE
      rw [if_pos (by rw [hlen]; omega)]
      rfl
    have htf : FixedSectEnum.try_from (1 :: 0 :: 1 :: List.replicate 65533 0) =
        Except.error CodingError.BadLengthField := by
      rw [try_from_cons_one,
          npu64_try_from_bad (1 :: 0 :: 1 :: List.replicate 65533 0) 256 hread
            (by rw [hlen]; decide)]
      rfl
    unfold sectList
    split
    · rfl
    · rename_i fse heq
      rw [htf] at heq
      cases heq

/-! ### Claim C7 -/

/-- Claim C7: with a section initialized, `add_64kb` calls the filler once,
before any rollover, on the writable window
`write_buf[cur_pos .. cur_pos + B]` with `B = min(65535 - num_bytes,
len - cur_pos)` and the element budget `E = max_elements_per_sect -
num_elements` (both appear literally in the filler hypothesis below); when
that invocation succeeds with `(b, e)` (with `e` within the asserted budget
and `b` within the offered window), the call returns `ok (b, e)` and the
header's `num_bytes` grows by exactly `b`, `num_elements` by exactly `e`, and
`cur_pos` advances by exactly `b`. -/
theorem c7_filler_window_and_commit (s : SectionWriter) (t : SectionType)
    (f : Filler) (w : List Nat) (b e : Nat)
    (h0 : s.cur_pos ≠ 0)
    (hle : s.cur_pos ≤ s.write_buf.length)
    (hh : s.cur_header_pos + 5 ≤ s.write_buf.length)
    (hnb : s.cur_header.num_bytes ≤ 65535)
    (hne : s.cur_header.num_elements ≤ 65535)
    (hme : s.max_elements_per_sect ≤ 65535)
    (hf : f ((s.write_buf.drop s.cur_pos).take
              (min (65535 - s.cur_header.num_bytes)
                   (s.write_buf.length - s.cur_pos)))
            (s.max_elements_per_sect - s.cur_header.num_elements) =
          Except.ok (w, b, e))
    (he : e ≤ s.max_elements_per_sect - s.cur_header.num_elements)
    (hb : b ≤ min (65535 - s.cur_header.num_bytes)
                  (s.write_buf.length - s.cur_pos)) :
    ∃ s2, s.add_64kb t f = some (s2, Except.ok (b, e)) ∧
      s2.cur_header.num_bytes = s.cur_header.num_bytes + b ∧
      s2.cur_header.num_elements = s.cur_header.num_elements + e ∧
      s2.cur_pos = s.cur_pos + b := by
  rw [add_64kb_of_pos_ne h0]
  obtain ⟨s2, hres, hnb2, hne2, -, hp2, -, -, -⟩ :=
    addBody_filler_ok (by omega) hf he hh
  have hble : b ≤ 65535 - s.cur_header.num_bytes :=
    le_trans hb (Nat.min_le_left _ _)
  refine ⟨s2, hres, ?_, ?_, hp2⟩
  · rw [hnb2]
    exact Nat.mod_eq_of_lt (by omega)
  · rw [hne2]
    exact Nat.mod_eq_of_lt (by omega)

/-- Witness for C7 at a concrete initialized writer and a concrete filler
that reports 2 bytes and 3 elements. -/
theorem c7_filler_window_and_commit_witness :
    ∃ s2, SectionWriter.add_64kb
        { write_buf := List.replicate 20 0, cur_pos := 5, cur_header_pos := 0,
          max_elements_per_sect := 256,
          cur_header := { num_bytes := 0, num_elements := 0,
                          typ := SectionType.Null } }
        SectionType.Null (fun _ _ => Except.ok ([9, 9], 2, 3)) =
        some (s2, Except.ok (2, 3)) ∧
      s2.cur_header.num_bytes = 0 + 2 ∧
      s2.cur_header.num_elements = 0 + 3 ∧
      s2.cur_pos = 5 + 2 :=
  c7_filler_window_and_commit _ SectionType.Null _ [9, 9] 2 3
    (by decide) (by decide) (by decide) (by decide) (by decide) (by decide)
    rfl (by decide) (by decide)

/-! ### Claim C9 -/

/-- Cap preservation for `addBody`, by strong induction on the room left in
the buffer: when every filler success reports at most the offered element
budget, `num_elements ≤ max_elements_per_sect` is preserved across the call,
rollovers included. -/
theorem addBody_preserves_cap {f : Filler}
    (hgood : ∀ w n w2 bb ee, f w n = Except.ok (w2, bb, ee) → ee ≤ n) :
    ∀ (m : Nat) (s : SectionWriter) (t : SectionType) (s2 : SectionWriter)
      (r : Except CodingError (Nat × Nat)),
      s.write_buf.length + 1 - s.cur_pos ≤ m →
      s.cur_header.num_elements ≤ s.max_elements_per_sect →
      s.max_elements_per_sect ≤ 65535 →
      s.addBody t f = some (s2, r) →
      s2.cur_header.num_elements ≤ s2.max_elements_per_sect ∧
      s2.max_elements_per_sect = s.max_elements_per_sect := by
  intro m
  induction m with
  | zero =>
    intro s t s2 r hm hinv hmax h
    unfold SectionWriter.addBody at h
    rw [if_pos (by omega)] at h
    cases h
  | succ m ih =>
    intro s t s2 r hm hinv hmax h
    unfold SectionWriter.addBody at h
    split at h
    · cases h
    · next hlt =>
      dsimp only at h
      split at h
      · next w bb ee hF =>
        split at h
        · next hassert =>
          split at h
          · next s3 u hupd =>
            cases h
            obtain ⟨-, -, -, -, hch, hm3, -⟩ := update_sect_header_ok hupd
            rw [hch, hm3]
            dsimp only
            constructor
            · have : (s.cur_header.num_elements + ee) % 65536 =
                  s.cur_header.num_elements + ee :=
                Nat.mod_eq_of_lt (by omega)
              omega
            · rfl
          · next s3 e2 hupd =>
            cases h
            obtain ⟨-, hs3, -⟩ := update_sect_header_error hupd
            rw [hs3]
            dsimp only
            constructor
            · have : (s.cur_header.num_elements + ee) % 65536 =
                  s.cur_header.num_elements + ee :=
                Nat.mod_eq_of_lt (by omega)
              omega
            · rfl
        · cases h
      · next hF =>
        split at h
        · next s3 u hinit =>
          obtain ⟨hl3, hp3, hb3, -, hch3, hm3⟩ := init_new_section_ok hinit
          rw [add_64kb_of_pos_ne (by omega)] at h
          have := ih s3 t s2 r (by omega) (by rw [hch3, hm3]; exact Nat.zero_le _)
            (by omega) h
          rw [hm3] at this
          exact this
        · next s3 e2 hinit =>
          cases h
          obtain ⟨-, hs3, -⟩ := init_new_section_error hinit
          rw [hs3]
          exact ⟨Nat.zero_le _, rfl⟩
      · next e hne2 hF =>
        cases h
        exact ⟨hinv, rfl⟩

/-- Cap preservation for a single `add_64kb` call. -/
theorem add_64kb_preserves_cap {f : Filler}
    (hgood : ∀ w n w2 bb ee, f w n = Except.ok (w2, bb, ee) → ee ≤ n)
    {s : SectionWriter} {t : SectionType} {s2 : SectionWriter}
    {r : Except CodingError (Nat × Nat)}
    (hinv : s.cur_header.num_elements ≤ s.max_elements_per_sect)
    (hmax : s.max_elements_per_sect ≤ 65535)
    (h : s.add_64kb t f = some (s2, r)) :
    s2.cur_header.num_elements ≤ s2.max_elements_per_sect ∧
    s2.max_elements_per_sect = s.max_elements_per_sect := by
  by_cases h0 : s.cur_pos = 0
  · rcases hinit : s.init_new_section t with ⟨s1, res⟩
    cases res with
    | error e2 =>
      rw [add_64kb_of_init_error h0 hinit] at h
      cases h
      obtain ⟨-, hs1, -⟩ := init_new_section_error hinit
      rw [hs1]
      exact ⟨Nat.zero_le _, rfl⟩
    | ok u =>
      obtain ⟨hl1, hp1, hb1, -, hch1, hm1⟩ := init_new_section_ok hinit
      rw [add_64kb_of_pos_zero h0 hinit] at h
      have := addBody_preserves_cap hgood
        (s1.write_buf.length + 1 - s1.cur_pos) s1 t s2 r le_rfl
        (by rw [hch1, hm1]; exact Nat.zero_le _) (by omega) h
      rw [hm1] at this
      exact this
  · rw [add_64kb_of_pos_ne h0] at h
    exact addBody_preserves_cap hgood (s.write_buf.length + 1 - s.cur_pos)
      s t s2 r le_rfl hinv hmax h

/-- Claim C9: across any sequence of `add_64kb` calls whose fillers report at
most the offered element budget, the invariant
`num_elements ≤ max_elements_per_sect` holds after every call (any prefix of
such a sequence is such a sequence, so the final-state statement covers every
intermediate state). -/
theorem c9_element_cap_invariant (calls : List (SectionType × Filler))
    (s s2 : SectionWriter)
    (hgood : ∀ c ∈ calls, ∀ w n w2 bb ee,
      c.2 w n = Except.ok (w2, bb, ee) → ee ≤ n)
    (hinv : s.cur_header.num_elements ≤ s.max_elements_per_sect)
    (hmax : s.max_elements_per_sect ≤ 65535)
    (hrun : runAdds s calls = some s2) :
    s2.cur_header.num_elements ≤ s2.max_elements_per_sect := by
  induction calls generalizing s with
  | nil =>
    unfold runAdds at hrun
    cases hrun
    exact hinv
  | cons c rest ih =>
    unfold runAdds at hrun
    split at hrun
    · next s3 r hstep =>
      have hc := add_64kb_preserves_cap (hgood c (List.mem_cons_self c rest))
        hinv hmax hstep
      exact ih s3 (fun d hd => hgood d (List.mem_cons_of_mem c hd))
        hc.1 (by omega) hrun
    · cases hrun

/-- Witness for C9: a compliant call on a fresh 32-byte writer with cap 6
keeps the element count within the cap. -/
theorem c9_element_cap_invariant_witness :
    ∃ s2, runAdds (SectionWriter.new (List.replicate 32 0) 6)
        [(SectionType.Null, fun _ n => Except.ok ([], 4, min n 4))] = some s2 ∧
      s2.cur_header.num_elements ≤ s2.max_elements_per_sect := by
  have e1 : (SectionWriter.new (List.replicate 32 0) 6).init_new_section
      SectionType.Null =
      ({ write_buf := List.replicate 32 0, cur_pos := 5, cur_header_pos := 0,
         max_elements_per_sect := 6,
         cur_header := { num_bytes := 0, num_elements := 0,
                         typ := SectionType.Null } }, Except.ok (5, 0)) := by
    decide
  have hadd := add_64kb_of_pos_zero
    (f := fun _ n => Except.ok (([] : List Nat), 4, min n 4)) rfl e1
  obtain ⟨s2, hres, -, -, -, -, -, -, -⟩ :=
    addBody_filler_ok
      (s := { write_buf := List.replicate 32 0, cur_pos := 5, cur_header_pos := 0,
              max_elements_per_sect := 6,
              cur_header := { num_bytes := 0, num_elements := 0,
                              typ := SectionType.Null } })
      (t := SectionType.Null)
      (f := fun _ n => Except.ok (([] : List Nat), 4, min n 4))
      (w := []) (b := 4) (e := 4)
      (by decide) (by decide) (by decide) (by decide)
  have hstep := hadd.trans hres
  have hrunEq : runAdds (SectionWriter.new (List.replicate 32 0) 6)
      [(SectionType.Null, fun _ n => Except.ok ([], 4, min n 4))] = some s2 := by
    unfold runAdds
    rw [hstep]
    rfl
  refine ⟨s2, hrunEq, ?_⟩
  refine c9_element_cap_invariant _ _ s2 ?_ (by decide) (by decide) hrunEq
  intro c hc w n w2 bb ee hF
  rw [List.mem_singleton.mp hc] at hF
  simp only at hF
  cases hF
  exact Nat.min_le_left _ _

/-! ### Claim C4 -/

/-- Claim C4 (code bug, failing input): at `sect_bytes = [1, 255, 255]` the
declared length is L = 65535 and `3 + L = 65538` exceeds the 3-byte slice, yet
both Medium constructors succeed, because the source compares
`(n + 3) <= sect_bytes.len() as u16` in truncated 16-bit arithmetic
(65538 mod 65536 = 2 ≤ 3); in a debug build `n + 3` overflows u16 and panics
instead.  The claim (and spec section 4.3) require a short-input failure
whenever `3 + L` exceeds the slice length. -/
theorem c4_truncated_length_check :
    NibblePackU64MedFixedSect.try_from [1, 255, 255] =
      Except.ok { encoded_bytes := 65535 } ∧
    NibblePackU32MedFixedSect.try_from [1, 255, 255] =
      Except.ok { encoded_bytes := 65535 } ∧
    3 + 65535 > ([1, 255, 255] : List Nat).length := by
  refine ⟨?_, ?_, by decide⟩ <;> decide

/-! ### Claim C8 -/

/-- Claim C8: `FixedSectEnum::try_from` fails with `InputTooShort` on the empty
slice, fails with `InvalidSectionType b` when the first byte `b` is not 0, 1
or 2, dispatches to the matching variant constructor for known tags with the
constructor's result (hence its error) propagated unchanged, and never
succeeds on an unknown tag. -/
theorem c8_fixedsectenum_dispatch (s : List Nat) :
    (s = [] → FixedSectEnum.try_from s = Except.error CodingError.InputTooShort) ∧
    (∀ b rest, s = b :: rest →
      (b = 0 → FixedSectEnum.try_from s = Except.ok (FixedSectEnum.NullFS {})) ∧
      (b = 1 → FixedSectEnum.try_from s =
        (NibblePackU64MedFixedSect.try_from s).map FixedSectEnum.NPU64) ∧
      (b = 2 → FixedSectEnum.try_from s =
        (NibblePackU32MedFixedSect.try_from s).map FixedSectEnum.NPU32) ∧
      (b ≠ 0 → b ≠ 1 → b ≠ 2 →
        FixedSectEnum.try_from s = Except.error (CodingError.InvalidSectionType b))) ∧
    (∀ fse, FixedSectEnum.try_from s = Except.ok fse →
      ∃ b rest, s = b :: rest ∧ (b = 0 ∨ b = 1 ∨ b = 2)) := by
  refine ⟨fun hs => by rw [hs]; rfl, ?_, ?_⟩
  · rintro b rest rfl
    refine ⟨fun hb => by subst hb; rfl, fun hb => by subst hb; rfl,
            fun hb => by subst hb; rfl, fun h0 h1 h2 => ?_⟩
    rcases b with _ | _ | _ | n
    · exact absurd rfl h0
    · exact absurd rfl h1
    · exact absurd rfl h2
    · rfl
  · intro fse hok
    match s with
    | [] => exact absurd hok (by simp [FixedSectEnum.try_from])
    | b :: rest =>
      refine ⟨b, rest, rfl, ?_⟩
      rcases b with _ | _ | _ | n
      · exact Or.inl rfl
      · exact Or.inr (Or.inl rfl)
      · exact Or.inr (Or.inr rfl)
      · exact absurd hok (by simp [FixedSectEnum.try_from, SectionType.try_from])

/-- Witness for C8 at concrete inputs: the unknown tag 3 is rejected as
`InvalidSectionType 3`, and the empty slice as `InputTooShort`. -/
theorem c8_fixedsectenum_dispatch_witness :
    FixedSectEnum.try_from [3] = Except.error (CodingError.InvalidSectionType 3) ∧
    FixedSectEnum.try_from [] = Except.error CodingError.InputTooShort :=
  ⟨(((c8_fixedsectenum_dispatch [3]).2.1 3 [] rfl).2.2.2 (by decide) (by decide)
      (by decide)),
   (c8_fixedsectenum_dispatch []).1 rfl⟩

/-! ### Claim C10 -/

/-- Claim C10: `decode_to_sink` (and `unpack_u32_section` above it) never read
the declared length field: the result only depends on `sect_bytes[3..]`, on
which exactly 256 values are decoded in 8-element strides; any slice shorter
than 3 bytes panics (out-of-bounds slice) instead of returning an error. -/
theorem c10_decode_ignores_length_field :
    (∀ s : List Nat, s.length < 3 →
      NibblePackU32MedFixedSect.decode_to_sink s = none ∧
      unpack_u32_section s = none) ∧
    (∀ s : List Nat, 3 ≤ s.length →
      NibblePackU32MedFixedSect.decode_to_sink s =
        some (decodeLoop (s.drop 3) FIXED_LEN [])) ∧
    (∀ s u : List Nat, 3 ≤ s.length → 3 ≤ u.length → s.drop 3 = u.drop 3 →
      NibblePackU32MedFixedSect.decode_to_sink s =
        NibblePackU32MedFixedSect.decode_to_sink u) ∧
    (∀ s vs, unpack_u32_section s = some vs → vs.length = 256) := by
  have hsome : ∀ s : List Nat, 3 ≤ s.length →
      NibblePackU32MedFixedSect.decode_to_sink s =
        some (decodeLoop (s.drop 3) FIXED_LEN []) := by
    intro s hs
    unfold NibblePackU32MedFixedSect.decode_to_sink
    rw [if_neg (by omega)]
  refine ⟨?_, hsome, ?_, ?_⟩
  · intro s hs
    have hd : NibblePackU32MedFixedSect.decode_to_sink s = none := by
      unfold NibblePackU32MedFixedSect.decode_to_sink
      rw [if_pos hs]
    exact ⟨hd, by unfold unpack_u32_section; rw [hd]⟩
  · intro s u hs hu hdrop
    rw [hsome s hs, hsome u hu, hdrop]
  · intro s vs h
    unfold unpack_u32_section at h
    split at h
    · next vs2 heq =>
      cases h
      by_cases hlen : s.length < 3
      · unfold NibblePackU32MedFixedSect.decode_to_sink at heq
        rw [if_pos hlen] at heq
        cases heq
      · rw [hsome s (by omega)] at heq
        have := decodeLoop_length (n := FIXED_LEN) ⟨32, rfl⟩ (Option.some.inj heq)
        simpa [FIXED_LEN] using this
    · cases h
    · cases h

/-- Witness for C10: a 1-byte input panics, and on a valid 259-byte section of
256 zero values the decode succeeds with exactly 256 values. -/
theorem c10_decode_ignores_length_field_witness :
    ([0] : List Nat).length < 3 ∧
    NibblePackU32MedFixedSect.decode_to_sink [0] = none :=
  ⟨by decide, ((c10_decode_ignores_length_field.1 [0] (by decide)).1)⟩

end CompressedVec
